import Mathlib

/-!
# Verification of the marketing-performance integration pipeline

Shallow embedding of `src/process_data.py` (pandas pipeline).

Modelling conventions:
* A pandas `DataFrame` is a `DF`: a list of column names together with a
  rectangular list of rows; each cell is a `Value` (number, string, calendar
  date, or null).  Numbers are rationals (pandas floats are modelled
  exactly); `NaN`/`NaT`/`None` are all `Value.null`.
* Calendar dates are day numbers (days since 1970-01-01, which was a
  Thursday); `daysFromCivil` converts a `(year, month, day)` triple.
* `pd.to_datetime(..., errors="coerce")` on a column that semantically holds
  dates is modelled by `parseDateV`: a date value parses to itself, any
  other value (an unparseable cell) coerces to null.  Which concrete strings
  parse as dates is outside the embedding: inputs carry already-tokenised
  date values, and everything non-date is "unparseable".
* Rational arithmetic is done through `qadd`/`qmul`/`qdiv` (defined via
  `Rat.divInt`, which the kernel evaluates) and proved equal to the
  Mathlib operations.
-/

/-! ## Kernel-evaluable rational arithmetic -/

/-- Addition on `ℚ` via `Rat.divInt` (cross-multiplication). -/
def qadd (a b : ℚ) : ℚ :=
  Rat.divInt (a.num * (b.den : ℤ) + b.num * (a.den : ℤ)) ((a.den : ℤ) * (b.den : ℤ))

/-- Multiplication on `ℚ` via `Rat.divInt`. -/
def qmul (a b : ℚ) : ℚ :=
  Rat.divInt (a.num * b.num) ((a.den : ℤ) * (b.den : ℤ))

/-- Division on `ℚ` via `Rat.divInt`. -/
def qdiv (a b : ℚ) : ℚ :=
  Rat.divInt (a.num * (b.den : ℤ)) ((a.den : ℤ) * b.num)

/-- Boolean `≤` on `ℚ` by cross-multiplication (denominators are positive). -/
def qleB (a b : ℚ) : Bool :=
  a.num * (b.den : ℤ) ≤ b.num * (a.den : ℤ)

/-- Floor of a rational, as an integer (denominator is positive). -/
def qfloor (a : ℚ) : ℤ := Int.fdiv a.num (a.den : ℤ)

theorem qadd_eq (a b : ℚ) : qadd a b = a + b := by
  have ha : ((a.den : ℤ)) ≠ 0 := by exact_mod_cast a.den_nz
  have hb : ((b.den : ℤ)) ≠ 0 := by exact_mod_cast b.den_nz
  unfold qadd
  conv_rhs => rw [← Rat.num_divInt_den a, ← Rat.num_divInt_den b]
  rw [Rat.divInt_add_divInt _ _ ha hb]

theorem qmul_eq (a b : ℚ) : qmul a b = a * b := by
  unfold qmul
  conv_rhs => rw [← Rat.num_divInt_den a, ← Rat.num_divInt_den b]
  rw [Rat.divInt_mul_divInt']

theorem qdiv_eq (a b : ℚ) : qdiv a b = a / b := (Rat.div_def' a b).symm

/-! ## Values and calendar dates -/

/-- A cell of a table: a number, a string, a calendar date (day number since
1970-01-01), or null (`NaN` / `NaT` / `None`). -/
inductive Value where
  | num  (q : ℚ)
  | str  (s : String)
  | date (d : ℤ)
  | null
deriving DecidableEq, Repr

/-- Day number since 1970-01-01 of the Gregorian date `y-m-d`
(Howard Hinnant's `days_from_civil`). -/
def daysFromCivil (y m d : ℤ) : ℤ :=
  let y' := if m ≤ 2 then y - 1 else y
  let era := Int.fdiv y' 400
  let yoe := y' - era * 400
  let mp := if m > 2 then m - 3 else m + 9
  let doy := Int.fdiv (153 * mp + 2) 5 + d - 1
  let doe := yoe * 365 + Int.fdiv yoe 4 - Int.fdiv yoe 100 + doy
  era * 146097 + doe - 719468

/-- `pd.to_datetime(col, errors="coerce")` on a semantically-date column:
an already-valid date stays, any other (unparseable) value coerces to null. -/
def parseDateV : Value → Value
  | .date d => .date d
  | _ => .null

/-- `pd.to_numeric(v, errors="coerce")` on one cell: numbers stay, strings of
digits parse, anything else (including null) coerces to null. -/
def toNumericV : Value → Value
  | .num q => .num q
  | .str s =>
      match s.toNat? with
      | some n => .num (n : ℚ)
      | none => .null
  | _ => .null

/-- `.fillna(0.0)` on one cell. -/
def fillZeroV : Value → Value
  | .null => .num 0
  | v => v

/-- One-cell effect of `pd.to_numeric(..., errors="coerce").fillna(0.0)`. -/
def cleanV (v : Value) : Value := fillZeroV (toNumericV v)

/-- `numpy` half-to-even rounding (`Series.round()` with no digits). -/
def roundHalfEven (q : ℚ) : ℚ :=
  let f := qfloor q
  let r := qadd q (qmul (-1) (f : ℚ))
  if qleB r (qdiv 1 2) then
    if qleB (qdiv 1 2) r then
      -- r = 1/2 exactly: round to the even neighbour
      if f % 2 = 0 then (f : ℚ) else ((f + 1 : ℤ) : ℚ)
    else (f : ℚ)
  else ((f + 1 : ℤ) : ℚ)

/-! ## DataFrames -/

/-- A pandas DataFrame: named columns and rectangular rows of cells. -/
structure DF where
  cols : List String
  rows : List (List Value)
deriving DecidableEq, Repr

/-- A table is well-formed when every row has one cell per column
(DataFrames are rectangular). -/
def DF.WF (df : DF) : Prop :=
  ∀ r ∈ df.rows, r.length = df.cols.length

instance (df : DF) : Decidable df.WF := by
  unfold DF.WF; infer_instance

/-- Index of a column name in a header. -/
def colIdx (cols : List String) (c : String) : Option ℕ :=
  cols.findIdx? (· = c)

/-- The cell of row `r` under column `c` of header `cols` (null when the
column is absent: callers only use this when presence was established). -/
def cellAt (cols : List String) (r : List Value) (c : String) : Value :=
  match colIdx cols c with
  | some i => r.getD i .null
  | none => .null

/-- `df[c] = f(row)` for a row-dependent `f`: overwrite the column in place
when it exists, otherwise append it on the right (pandas assignment). -/
def DF.setColWith (df : DF) (c : String) (f : List Value → Value) : DF :=
  match colIdx df.cols c with
  | some i => ⟨df.cols, df.rows.map fun r => r.set i (f r)⟩
  | none => ⟨df.cols ++ [c], df.rows.map fun r => r ++ [f r]⟩

/-- `df[c] = g(df[c])` (element-wise transform of one column). -/
def DF.mapCol (df : DF) (c : String) (g : Value → Value) : DF :=
  df.setColWith c fun r => g (cellAt df.cols r c)

/-- `df[c] = v` (constant column assignment). -/
def DF.setColConst (df : DF) (c : String) (v : Value) : DF :=
  df.setColWith c fun _ => v

/-- The values of column `c`, top to bottom (`df[c]` as a Series). -/
def DF.colValues (df : DF) (c : String) : List Value :=
  df.rows.map fun r => cellAt df.cols r c

/-- Assign a precomputed list of values (one per row) to column `c`. -/
def DF.setColVals (df : DF) (c : String) (vs : List Value) : DF :=
  match colIdx df.cols c with
  | some i => ⟨df.cols, List.zipWith (fun r v => r.set i v) df.rows vs⟩
  | none => ⟨df.cols ++ [c], List.zipWith (fun r v => r ++ [v]) df.rows vs⟩

/-- `coalesce_numeric` for one column `c`: coerce-and-fill when the column
exists, otherwise create it as all `0.0`. -/
def coalesceStep (df : DF) (c : String) : DF :=
  if (colIdx df.cols c).isSome then df.mapCol c cleanV
  else df.setColConst c (.num 0)

/-- `coalesce_numeric(df, cols)` from the source: for each requested column,
coerce to numeric with nulls as `0.0`, creating absent columns as `0.0`. -/
def coalesce_numeric (df : DF) (cs : List String) : DF :=
  match cs with
  | [] => df
  | c :: rest => coalesce_numeric (coalesceStep df c) rest

/-! ## Sorting and grouping helpers -/

/-- Lexicographic order on code points (how Python compares the channel
strings), written so the kernel can evaluate it. -/
def charListLeB : List Char → List Char → Bool
  | [], _ => true
  | _ :: _, [] => false
  | a :: as, b :: bs =>
      if a.toNat < b.toNat then true
      else if b.toNat < a.toNat then false
      else charListLeB as bs

/-- `≤` on strings by code points (same order as Lean's `String` order and
Python's). -/
def strLeB (a b : String) : Bool := charListLeB a.data b.data

/-- Comparison used for pandas sorting: numbers, then strings, then dates,
with null (`NaN`/`NaT`) last; like values compare naturally. -/
def valLeB : Value → Value → Bool
  | .num a, .num b => qleB a b
  | .num _, _ => true
  | .str _, .num _ => false
  | .str a, .str b => strLeB a b
  | .str _, _ => true
  | .date _, .num _ => false
  | .date _, .str _ => false
  | .date a, .date b => a ≤ b
  | .date _, .null => true
  | .null, .null => true
  | .null, _ => false

/-- Lexicographic comparison of composite sort keys. -/
def keyLeB : List Value → List Value → Bool
  | [], _ => true
  | _ :: _, [] => false
  | a :: as, b :: bs => if a = b then keyLeB as bs else valLeB a b

/-- Sort a list of group keys ascending (pandas `groupby(sort=True)`). -/
def sortKeys (ks : List (List Value)) : List (List Value) :=
  List.insertionSort (fun k1 k2 => keyLeB k1 k2 = true) ks

/-- The composite key of a row under key columns `ks`. -/
def rowKey (cols : List String) (ks : List String) (r : List Value) : List Value :=
  ks.map (cellAt cols r)

/-- A group key is used only when none of its parts is null: pandas
`groupby` drops rows with `NaN`/`NaT` in any key. -/
def keyOk (k : List Value) : Bool :=
  k.all fun v => v ≠ Value.null

/-- The sorted list of distinct non-null group keys of `rows`. -/
def groupKeys (cols : List String) (ks : List String)
    (rows : List (List Value)) : List (List Value) :=
  sortKeys (((rows.map (rowKey cols ks)).filter keyOk).dedup)

/-- Sum of the numeric cells of column `c` over `rows`
(pandas `sum` skips nulls). -/
def sumCol (cols : List String) (rows : List (List Value)) (c : String) : ℚ :=
  rows.foldl
    (fun a r => match cellAt cols r c with
      | .num q => qadd a q
      | _ => a) 0

/-- Number of distinct non-null values of column `c` over `rows`
(pandas `nunique`). -/
def nuniqueCol (cols : List String) (rows : List (List Value)) (c : String) : ℕ :=
  (((rows.map fun r => cellAt cols r c).filter fun v => v ≠ Value.null).dedup).length

instance {ε α : Type} [DecidableEq ε] [DecidableEq α] : DecidableEq (Except ε α) :=
  fun x y =>
  match x, y with
  | .ok a, .ok b =>
      if h : a = b then isTrue (by rw [h]) else
        isFalse (by intro hh; cases hh; exact h rfl)
  | .error a, .error b =>
      if h : a = b then isTrue (by rw [h]) else
        isFalse (by intro hh; cases hh; exact h rfl)
  | .ok _, .error _ => isFalse (by intro hh; cases hh)
  | .error _, .ok _ => isFalse (by intro hh; cases hh)

/-! ## Channel normalizers (`load_ppc`, `load_email`, `load_social`) -/

/-- Element-wise fallible map over a Series (left to right, stopping at
the first raised error, like a vectorised pandas operation). -/
def mapE {a b : Type} (f : a → Except String b) : List a → Except String (List b)
  | [] => .ok []
  | x :: xs =>
      match f x with
      | .error e => .error e
      | .ok y =>
          match mapE f xs with
          | .error e => .error e
          | .ok ys => .ok (y :: ys)

/-- One cell of `(df["spend"] / ESTIMATED_CPC).round()` with
`ESTIMATED_CPC = 2.0`: numbers divide and round half-to-even, null stays
null (`NaN`), anything else raises (`TypeError` on object dtype). -/
def ppcImputeV : Value → Except String Value
  | .num q => .ok (.num (roundHalfEven (qdiv q 2)))
  | .null => .ok .null
  | _ => .error "TypeError: unsupported operand type for /"

/-- One cell of `df["emails_sent"] * (CPM_RATE / 1000.0)` with
`CPM_RATE = 30.0`: numbers scale, null stays null, anything else raises. -/
def emailImputeV : Value → Except String Value
  | .num q => .ok (.num (qmul q (qdiv 30 1000)))
  | .null => .ok .null
  | _ => .error "TypeError: unsupported operand type for *"

/-- The shared head of every loader: parse the `date` column in place
(`df[DATE_COL] = pd.to_datetime(df["date"], errors="coerce").dt.date`) and
tag the channel (`df['channel'] = tag`). -/
def dateChannelNorm (df : DF) (tag : String) : DF :=
  (df.mapCol "date" parseDateV).setColConst "channel" (.str tag)

/-- `load_ppc` (file reading elided): require a `date` column, parse dates,
tag `channel = "PPC"`, and when `clicks` is absent or entirely null impute
`clicks = (spend / 2.0).round()` — looking up `spend` raises `KeyError`
when that column is absent. -/
def load_ppc (df : DF) : Except String DF :=
  if (colIdx df.cols "date").isNone then
    .error "ValueError: every dateframe should have the date column, problem in PPC"
  else
    if (colIdx (dateChannelNorm df "PPC").cols "clicks").isNone
        || ((dateChannelNorm df "PPC").colValues "clicks").all (· = Value.null) then
      if (colIdx (dateChannelNorm df "PPC").cols "spend").isNone then
        .error "KeyError: spend"
      else
        match mapE ppcImputeV ((dateChannelNorm df "PPC").colValues "spend") with
        | .error e => .error e
        | .ok vs => .ok ((dateChannelNorm df "PPC").setColVals "clicks" vs)
    else
      .ok (dateChannelNorm df "PPC")

/-- `load_email`: require `date`, parse dates, tag `channel = "Email"`, and
when `spend` is absent or entirely null impute
`spend = emails_sent * (30.0 / 1000.0)` — looking up `emails_sent` raises
`KeyError` when that column is absent. -/
def load_email (df : DF) : Except String DF :=
  if (colIdx df.cols "date").isNone then
    .error "ValueError: every dateframe should have the date column, problem in Email"
  else
    if (colIdx (dateChannelNorm df "Email").cols "spend").isNone
        || ((dateChannelNorm df "Email").colValues "spend").all (· = Value.null) then
      if (colIdx (dateChannelNorm df "Email").cols "emails_sent").isNone then
        .error "KeyError: emails_sent"
      else
        match mapE emailImputeV ((dateChannelNorm df "Email").colValues "emails_sent") with
        | .error e => .error e
        | .ok vs => .ok ((dateChannelNorm df "Email").setColVals "spend" vs)
    else
      .ok (dateChannelNorm df "Email")

/-- `load_social`: require `date`, parse dates, tag `channel = "Social Media"`. -/
def load_social (df : DF) : Except String DF :=
  if (colIdx df.cols "date").isNone then
    .error "ValueError: every dateframe should have the date column, problem in Social Media"
  else
    .ok (dateChannelNorm df "Social Media")

/-- The rows of `df` whose (date, channel) key equals `k`: one `groupby`
group. -/
def convGroup (df : DF) (k : List Value) : List (List Value) :=
  df.rows.filter fun r => rowKey df.cols ["date", "channel"] r = k

/-- The `groupby(['date','channel']).agg(revenue=('revenue','sum'),
conversions=('conversion_id','nunique'))` step of `load_conversions`:
one row per distinct non-null (date, channel) key (pandas drops null keys
and sorts them), with the group's revenue sum and distinct id count. -/
def convAgg (df : DF) : DF :=
  ⟨["date", "channel", "revenue", "conversions"],
   (groupKeys df.cols ["date", "channel"] df.rows).map fun k =>
     k ++ [.num (sumCol df.cols (convGroup df k) "revenue"),
           .num ((nuniqueCol df.cols (convGroup df k) "conversion_id" : ℕ) : ℚ)]⟩

/-- `load_conversions`: require `date`, parse dates, then aggregate per
(date, channel); the `groupby`/`agg` raises `KeyError` when `channel`,
`revenue` or `conversion_id` is absent. -/
def load_conversions (df : DF) : Except String DF :=
  if (colIdx df.cols "date").isNone then
    .error "ValueError: every dateframe should have the date column"
  else
    let d1 := df.mapCol "date" parseDateV
    if (colIdx d1.cols "channel").isNone then
      .error "KeyError: channel"
    else if (colIdx d1.cols "revenue").isNone then
      .error "KeyError: revenue"
    else if (colIdx d1.cols "conversion_id").isNone then
      .error "KeyError: conversion_id"
    else
      .ok (convAgg d1)

/-! ## Integration -/

/-- Column layout of the stacked (unioned) activity table. -/
def baseCols : List String :=
  ["date", "channel", "spend", "clicks", "emails_sent", "impressions"]

/-- `ppc[["date","channel","spend","clicks"]].assign(emails_sent=0.0, impressions=0.0)`. -/
def ppcProj (p : DF) : List (List Value) :=
  p.rows.map fun r =>
    [cellAt p.cols r "date", cellAt p.cols r "channel",
     cellAt p.cols r "spend", cellAt p.cols r "clicks", .num 0, .num 0]

/-- `email[["date","channel","spend","clicks","emails_sent"]].assign(impressions=0.0)`
(columns aligned by name onto `baseCols` by `pd.concat`). -/
def emailProj (e : DF) : List (List Value) :=
  e.rows.map fun r =>
    [cellAt e.cols r "date", cellAt e.cols r "channel",
     cellAt e.cols r "spend", cellAt e.cols r "clicks",
     cellAt e.cols r "emails_sent", .num 0]

/-- `social[["date","channel","spend","clicks","impressions"]].assign(emails_sent=0.0)`
(columns aligned by name onto `baseCols` by `pd.concat`). -/
def socialProj (s : DF) : List (List Value) :=
  s.rows.map fun r =>
    [cellAt s.cols r "date", cellAt s.cols r "channel",
     cellAt s.cols r "spend", cellAt s.cols r "clicks", .num 0,
     cellAt s.cols r "impressions"]

/-- The `pd.concat` of the three harmonized, projected activity tables
(`base` in `integrate`); takes the already-coalesced tables. -/
def stackBase (p e s : DF) : DF :=
  ⟨baseCols, ppcProj p ++ emailProj e ++ socialProj s⟩

/-- The extra (non-key) columns a merge with `conv` appends on the right. -/
def mergeExtra (conv : DF) : List String :=
  conv.cols.filter fun c => c ≠ "date" ∧ c ≠ "channel"

/-- The `conv` rows whose (date, channel) key matches base row `b`. -/
def convMatches (conv : DF) (cols : List String) (b : List Value) :
    List (List Value) :=
  conv.rows.filter fun s =>
    cellAt conv.cols s "date" = cellAt cols b "date" ∧
    cellAt conv.cols s "channel" = cellAt cols b "channel"

/-- The merged output rows one base row produces: one row per matching
`conv` row, or a single null-padded row when nothing matches. -/
def mergeRow (conv : DF) (cols : List String) (b : List Value) :
    List (List Value) :=
  match convMatches conv cols b with
  | [] => [b ++ (mergeExtra conv).map fun _ => Value.null]
  | ms => ms.map fun s => b ++ (mergeExtra conv).map fun c => cellAt conv.cols s c

/-- `base.merge(conv, on=['date','channel'], how='left')`: result columns
are `base`'s followed by `conv`'s non-key columns; every base row yields
one output row per matching `conv` row, or a single row padded with nulls
when no `conv` row matches. -/
def leftMerge (base conv : DF) : DF :=
  ⟨base.cols ++ mergeExtra conv, base.rows.flatMap (mergeRow conv base.cols)⟩

/-- `merged.sort_values(['date','channel']).reset_index(drop=True)`:
sort rows by (date, channel) ascending, nulls last. -/
def sortByDateChannel (df : DF) : DF :=
  ⟨df.cols,
   List.insertionSort
     (fun r1 r2 =>
       keyLeB [cellAt df.cols r1 "date", cellAt df.cols r1 "channel"]
              [cellAt df.cols r2 "date", cellAt df.cols r2 "channel"] = true)
     df.rows⟩

/-- `integrate(ppc, email, social, conv)`: re-check `date`/`channel` on each
activity table, harmonize the channel-specific numeric columns, stack, left
join the conversion summary on (date, channel), zero-coalesce the five
numeric columns, and sort by (date, channel). -/
def integrate (ppc email social conv : DF) : Except String DF :=
  if (colIdx ppc.cols "date").isNone || (colIdx ppc.cols "channel").isNone then
    .error "ValueError: Missing date or channel in one of the channel dataframes."
  else if (colIdx email.cols "date").isNone || (colIdx email.cols "channel").isNone then
    .error "ValueError: Missing date or channel in one of the channel dataframes."
  else if (colIdx social.cols "date").isNone || (colIdx social.cols "channel").isNone then
    .error "ValueError: Missing date or channel in one of the channel dataframes."
  else
    let p := coalesce_numeric ppc ["spend", "clicks"]
    let e := coalesce_numeric email ["spend", "clicks"]
    let s := coalesce_numeric social ["spend", "clicks", "impressions"]
    let cleaned := coalesce_numeric (leftMerge (stackBase p e s) conv)
      ["spend", "clicks", "revenue", "emails_sent", "impressions"]
    .ok (sortByDateChannel cleaned)

/-! ## Time bucketing (`add_time_granularities`) -/

/-- The label `pd.Grouper(freq="W-MON")` gives day `d`: pandas `W-MON`
weeks run Tuesday through Monday (`closed='right'`) and are labelled by
their final Monday (`label='right'`), so the label is the smallest Monday
`≥ d`.  Day 0 (1970-01-01) was a Thursday, so `d` is a Monday exactly when
`(d + 3) % 7 = 0`. -/
def weekLabel (d : ℤ) : ℤ := d + (7 - (d + 3) % 7) % 7

/-- A cell whose dtype is float-like (a number, or null = `NaN`): the
columns `sum(numeric_only=True)` keeps. -/
def isFloatLike : Value → Bool
  | .num _ => true
  | .null => true
  | _ => false

/-- The grouping key `(week label, channel)` of a row in the weekly rollup;
an unparseable (null) date gives a null key part, which `groupby` drops. -/
def weekKey (cols : List String) (r : List Value) : List Value :=
  [(match cellAt cols r "date" with
    | .date d => Value.date (weekLabel d)
    | _ => Value.null),
   cellAt cols r "channel"]

/-- The columns `sum(numeric_only=True)` will aggregate: every non-key
column whose values are all float-like. -/
def weeklySumCols (daily : DF) : List String :=
  daily.cols.filter fun c =>
    c ≠ "date" ∧ c ≠ "channel" ∧ (daily.colValues c).all fun v => isFloatLike v

/-- The rows that survive the weekly `groupby`: those with a parseable
(non-null) date and a non-null channel. -/
def weeklyKept (daily : DF) : List (List Value) :=
  daily.rows.filter fun r => keyOk (weekKey daily.cols r)

/-- The sorted distinct (week label, channel) keys. -/
def weeklyKeys (daily : DF) : List (List Value) :=
  sortKeys (((weeklyKept daily).map (weekKey daily.cols)).dedup)

/-- The weekly rollup of the (already re-parsed) daily table:
`groupby([Grouper(key="date", freq="W-MON"), "channel"], as_index=False)
.sum(numeric_only=True)` followed by the two renames that keep the label
column named `date`.  Rows with a null date or channel are dropped; the
summed columns are the float-like non-key columns. -/
def weeklyOf (daily : DF) : DF :=
  ⟨["date", "channel"] ++ weeklySumCols daily,
   (weeklyKeys daily).map fun k =>
     k ++ (weeklySumCols daily).map fun c =>
       Value.num (sumCol daily.cols
         ((weeklyKept daily).filter fun r => weekKey daily.cols r = k) c)⟩

/-- `add_time_granularities`: daily is a copy with the `date` column
re-parsed (`to_datetime(..., errors="coerce", dayfirst=True)`); weekly is
the Monday-labelled rollup of that daily table. -/
def add_time_granularities (df : DF) : DF × DF :=
  let daily := df.mapCol "date" parseDateV
  (daily, weeklyOf daily)

/-- `main` without the file plumbing: run the four loaders, integrate, and
bucket; returns the (daily, weekly) pair that would be written, or the
first uncaught error — on error no output file is written. -/
def mainPipeline (rawPpc rawEmail rawSocial rawConv : DF) :
    Except String (DF × DF) :=
  match load_ppc rawPpc with
  | .error e => .error e
  | .ok ppc =>
    match load_email rawEmail with
    | .error e => .error e
    | .ok email =>
      match load_social rawSocial with
      | .error e => .error e
      | .ok social =>
        match load_conversions rawConv with
        | .error e => .error e
        | .ok conv =>
          match integrate ppc email social conv with
          | .error e => .error e
          | .ok merged => .ok (add_time_granularities merged)

/-! ## Toolkit lemmas about the DataFrame operations -/

theorem zipWith_proj_right {α β : Type} (l1 : List α) (l2 : List β)
    (h : l1.length = l2.length) :
    List.zipWith (fun _ v => v) l1 l2 = l2 := by
  induction l1 generalizing l2 with
  | nil =>
      cases l2 with
      | nil => rfl
      | cons b bs => simp at h
  | cons a as ih =>
      cases l2 with
      | nil => simp at h
      | cons b bs =>
          simp only [List.zipWith_cons_cons, List.cons.injEq]
          exact ⟨trivial, ih bs (by simpa using h)⟩

theorem colIdx_eq_none_iff (cols : List String) (c : String) :
    colIdx cols c = none ↔ c ∉ cols := by
  unfold colIdx
  rw [List.findIdx?_eq_none_iff]
  constructor
  · intro h hc
    have := h c hc
    simp at this
  · intro h x hx
    simp only [decide_eq_false_iff_not]
    intro hx'
    exact h (hx' ▸ hx)

theorem colIdx_some_getElem (cols : List String) (c : String) (i : ℕ)
    (h : colIdx cols c = some i) : i < cols.length ∧ cols[i]? = some c := by
  unfold colIdx at h
  rw [List.findIdx?_eq_some_iff_getElem] at h
  obtain ⟨hlt, hp, _⟩ := h
  refine ⟨hlt, ?_⟩
  have hc : cols[i] = c := by simpa using hp
  simp [List.getElem?_eq_getElem hlt, hc]

theorem colIdx_append_ne (cols : List String) (c c' : String) (hne : c' ≠ c) :
    colIdx (cols ++ [c]) c' = colIdx cols c' := by
  unfold colIdx
  rw [List.findIdx?_append]
  have h2 : List.findIdx? (fun x => decide (x = c')) [c] = none := by
    simp [List.findIdx?, Ne.symm hne]
  simp [h2]

theorem colIdx_append_self (cols : List String) (c : String)
    (h : colIdx cols c = none) :
    colIdx (cols ++ [c]) c = some cols.length := by
  unfold colIdx at h ⊢
  rw [List.findIdx?_append, h]
  simp [List.findIdx?]

theorem cellAt_set_self (cols : List String) (r : List Value) (c : String)
    (i : ℕ) (v : Value) (h : colIdx cols c = some i)
    (hlen : r.length = cols.length) :
    cellAt cols (r.set i v) c = v := by
  have hi : i < r.length := hlen ▸ (colIdx_some_getElem cols c i h).1
  unfold cellAt
  rw [h]
  simp [List.getD, List.getElem?_set_self, hi]

theorem cellAt_set_ne (cols : List String) (r : List Value) (c c' : String)
    (i : ℕ) (v : Value) (h : colIdx cols c = some i) (hne : c' ≠ c) :
    cellAt cols (r.set i v) c' = cellAt cols r c' := by
  unfold cellAt
  cases h' : colIdx cols c' with
  | none => rfl
  | some j =>
      have hij : i ≠ j := by
        intro he
        have h1 := (colIdx_some_getElem cols c i h).2
        have h2 := (colIdx_some_getElem cols c' j h').2
        rw [he, h2] at h1
        exact hne (Option.some.inj h1)
      simp [List.getD, List.getElem?_set_ne hij]

theorem cellAt_append_ne (cols : List String) (r : List Value) (c c' : String)
    (v : Value) (hne : c' ≠ c) (hlen : r.length = cols.length) :
    cellAt (cols ++ [c]) (r ++ [v]) c' = cellAt cols r c' := by
  unfold cellAt
  rw [colIdx_append_ne cols c c' hne]
  cases h' : colIdx cols c' with
  | none => rfl
  | some j =>
      have hj : j < r.length := hlen ▸ (colIdx_some_getElem cols c' j h').1
      simp [List.getD, List.getElem?_append_left hj]

theorem cellAt_append_self (cols : List String) (r : List Value) (c : String)
    (v : Value) (hnone : colIdx cols c = none) (hlen : r.length = cols.length) :
    cellAt (cols ++ [c]) (r ++ [v]) c = v := by
  unfold cellAt
  rw [colIdx_append_self cols c hnone]
  have : (r ++ [v])[r.length]? = some v := by
    simp [List.getElem?_append_right (Nat.le_refl r.length)]
  rw [← hlen]
  simp [List.getD, this]

theorem cols_setColWith_of_present (df : DF) (c : String)
    (f : List Value → Value) (h : (colIdx df.cols c).isSome) :
    (df.setColWith c f).cols = df.cols := by
  unfold DF.setColWith
  cases h' : colIdx df.cols c with
  | none => rw [h'] at h; simp at h
  | some i => rfl

theorem cols_setColWith_of_absent (df : DF) (c : String)
    (f : List Value → Value) (h : colIdx df.cols c = none) :
    (df.setColWith c f).cols = df.cols ++ [c] := by
  unfold DF.setColWith
  rw [h]

theorem WF_setColWith (df : DF) (c : String) (f : List Value → Value)
    (hwf : df.WF) : (df.setColWith c f).WF := by
  unfold DF.setColWith
  cases h : colIdx df.cols c with
  | none =>
      intro r hr
      simp only [List.mem_map] at hr
      obtain ⟨r0, hr0, rfl⟩ := hr
      simp [hwf r0 hr0]
  | some i =>
      intro r hr
      simp only [List.mem_map] at hr
      obtain ⟨r0, hr0, rfl⟩ := hr
      simp [hwf r0 hr0]

theorem colValues_setColWith_self (df : DF) (c : String)
    (f : List Value → Value) (hwf : df.WF) :
    (df.setColWith c f).colValues c = df.rows.map f := by
  unfold DF.colValues DF.setColWith
  cases h : colIdx df.cols c with
  | some i =>
      simp only [List.map_map]
      apply List.map_congr_left
      intro r hr
      exact cellAt_set_self df.cols r c i (f r) h (hwf r hr)
  | none =>
      simp only [List.map_map]
      apply List.map_congr_left
      intro r hr
      exact cellAt_append_self df.cols r c (f r) h (hwf r hr)

theorem colValues_setColWith_ne (df : DF) (c c' : String)
    (f : List Value → Value) (hne : c' ≠ c) (hwf : df.WF) :
    (df.setColWith c f).colValues c' = df.colValues c' := by
  unfold DF.colValues DF.setColWith
  cases h : colIdx df.cols c with
  | some i =>
      simp only [List.map_map]
      apply List.map_congr_left
      intro r hr
      exact cellAt_set_ne df.cols r c c' i (f r) h hne
  | none =>
      simp only [List.map_map]
      apply List.map_congr_left
      intro r hr
      exact cellAt_append_ne df.cols r c c' (f r) hne (hwf r hr)

theorem rows_length_setColWith (df : DF) (c : String) (f : List Value → Value) :
    (df.setColWith c f).rows.length = df.rows.length := by
  unfold DF.setColWith
  cases h : colIdx df.cols c <;> simp

theorem cols_setColVals_of_present (df : DF) (c : String) (vs : List Value)
    (h : (colIdx df.cols c).isSome) : (df.setColVals c vs).cols = df.cols := by
  unfold DF.setColVals
  cases h' : colIdx df.cols c with
  | none => rw [h'] at h; simp at h
  | some i => rfl

theorem cols_setColVals_of_absent (df : DF) (c : String) (vs : List Value)
    (h : colIdx df.cols c = none) : (df.setColVals c vs).cols = df.cols ++ [c] := by
  unfold DF.setColVals
  rw [h]

theorem colValues_setColVals_self (df : DF) (c : String) (vs : List Value)
    (hwf : df.WF) (hlen : vs.length = df.rows.length) :
    (df.setColVals c vs).colValues c = vs := by
  unfold DF.colValues DF.setColVals
  cases h : colIdx df.cols c with
  | some i =>
      simp only []
      rw [List.map_zipWith]
      have : List.zipWith (fun r v => cellAt df.cols (r.set i v) c) df.rows vs
          = List.zipWith (fun _ v => v) df.rows vs := by
        apply List.zipWith_congr
        apply List.forall₂_iff_get.mpr
        refine ⟨by omega, ?_⟩
        intro j h1 h2
        exact cellAt_set_self df.cols _ c i _ h (hwf _ (List.getElem_mem h1))
      rw [this]
      exact zipWith_proj_right df.rows vs hlen.symm
  | none =>
      simp only []
      rw [List.map_zipWith]
      have : List.zipWith (fun r v => cellAt (df.cols ++ [c]) (r ++ [v]) c) df.rows vs
          = List.zipWith (fun _ v => v) df.rows vs := by
        apply List.zipWith_congr
        apply List.forall₂_iff_get.mpr
        refine ⟨by omega, ?_⟩
        intro j h1 h2
        exact cellAt_append_self df.cols _ c _ h (hwf _ (List.getElem_mem h1))
      rw [this]
      exact zipWith_proj_right df.rows vs hlen.symm

theorem colIdx_setColWith_ne (df : DF) (c c' : String)
    (f : List Value → Value) (hne : c' ≠ c) :
    colIdx (df.setColWith c f).cols c' = colIdx df.cols c' := by
  unfold DF.setColWith
  cases h : colIdx df.cols c with
  | some i => rfl
  | none => exact colIdx_append_ne df.cols c c' hne

theorem colValues_length (df : DF) (c : String) :
    (df.colValues c).length = df.rows.length := by
  unfold DF.colValues
  simp

theorem mapE_ok_length {a b : Type} (f : a → Except String b)
    (xs : List a) (ys : List b) (h : mapE f xs = .ok ys) :
    ys.length = xs.length := by
  induction xs generalizing ys with
  | nil =>
      unfold mapE at h
      cases h
      rfl
  | cons x xs ih =>
      unfold mapE at h
      cases hx : f x with
      | error e => rw [hx] at h; cases h
      | ok y =>
          rw [hx] at h
          cases hxs : mapE f xs with
          | error e => rw [hxs] at h; cases h
          | ok ys0 =>
              rw [hxs] at h
              cases h
              simp [ih ys0 hxs]

theorem mapE_ok_eq_map {a b : Type} (f : a → Except String b) (g : a → b)
    (hfg : ∀ x y, f x = .ok y → y = g x) (xs : List a) (ys : List b)
    (h : mapE f xs = .ok ys) : ys = xs.map g := by
  induction xs generalizing ys with
  | nil =>
      unfold mapE at h
      cases h
      rfl
  | cons x xs ih =>
      unfold mapE at h
      cases hx : f x with
      | error e => rw [hx] at h; cases h
      | ok y =>
          rw [hx] at h
          cases hxs : mapE f xs with
          | error e => rw [hxs] at h; cases h
          | ok ys0 =>
              rw [hxs] at h
              cases h
              simp [hfg x y hx, ih ys0 hxs]

/-- The value `(v / 2.0).round()` takes on the non-raising cells
(numbers and `NaN`): total description of `ppcImputeV` on its domain. -/
def ppcClicksOf : Value → Value
  | .num q => .num (roundHalfEven (qdiv q 2))
  | _ => .null

theorem ppcImputeV_ok (v y : Value) (h : ppcImputeV v = .ok y) :
    y = ppcClicksOf v := by
  cases v <;> simp [ppcImputeV, ppcClicksOf] at h ⊢ <;> exact h.symm

/-- The value `emails_sent * (30.0 / 1000.0)` takes on the non-raising
cells: total description of `emailImputeV` on its domain. -/
def emailSpendOf : Value → Value
  | .num q => .num (qmul q (qdiv 30 1000))
  | _ => .null

theorem emailImputeV_ok (v y : Value) (h : emailImputeV v = .ok y) :
    y = emailSpendOf v := by
  cases v <;> simp [emailImputeV, emailSpendOf] at h ⊢ <;> try exact h.symm

theorem WF_mapCol (df : DF) (c : String) (g : Value → Value) (hwf : df.WF) :
    (df.mapCol c g).WF := WF_setColWith df c _ hwf

theorem WF_setColConst (df : DF) (c : String) (v : Value) (hwf : df.WF) :
    (df.setColConst c v).WF := WF_setColWith df c _ hwf

theorem WF_dateChannelNorm (df : DF) (tag : String) (hwf : df.WF) :
    (dateChannelNorm df tag).WF :=
  WF_setColConst _ _ _ (WF_mapCol df _ _ hwf)

theorem dateChannelNorm_colValues (df : DF) (tag : String) (c' : String)
    (hwf : df.WF) (h1 : c' ≠ "date") (h2 : c' ≠ "channel") :
    (dateChannelNorm df tag).colValues c' = df.colValues c' := by
  unfold dateChannelNorm DF.setColConst DF.mapCol
  rw [colValues_setColWith_ne _ _ _ _ h2 (WF_setColWith df _ _ hwf)]
  exact colValues_setColWith_ne _ _ _ _ h1 hwf

theorem dateChannelNorm_colIdx (df : DF) (tag : String) (c' : String)
    (h1 : c' ≠ "date") (h2 : c' ≠ "channel") :
    colIdx (dateChannelNorm df tag).cols c' = colIdx df.cols c' := by
  unfold dateChannelNorm DF.setColConst DF.mapCol
  rw [colIdx_setColWith_ne _ _ _ _ h2]
  exact colIdx_setColWith_ne _ _ _ _ h1

theorem dateChannelNorm_rows_length (df : DF) (tag : String) :
    (dateChannelNorm df tag).rows.length = df.rows.length := by
  unfold dateChannelNorm DF.setColConst DF.mapCol
  rw [rows_length_setColWith, rows_length_setColWith]

/-- C6: for every PPC input table containing `date` and `spend`, if the
`clicks` column is absent or entirely null then the normalized PPC table
has `clicks = round(spend / 2.0)` on every row (half-to-even rounding, and
a null spend yields a null click); and when a populated `clicks` column is
present it passes through unchanged. -/
theorem C6_ppc_clicks_imputation (df out : DF) (hwf : df.WF)
    (hload : load_ppc df = .ok out) :
    ((colIdx df.cols "clicks" = none ∨
        (df.colValues "clicks").all (· = Value.null) = true) →
      out.colValues "clicks" = (df.colValues "spend").map ppcClicksOf)
    ∧ ((colIdx df.cols "clicks" ≠ none ∧
        ¬ (df.colValues "clicks").all (· = Value.null) = true) →
      out.colValues "clicks" = df.colValues "clicks") := by
  by_cases hd : (colIdx df.cols "date").isNone
  · simp [load_ppc, hd] at hload
  · unfold load_ppc at hload
    rw [if_neg hd] at hload
    rw [dateChannelNorm_colIdx df "PPC" "clicks" (by decide) (by decide)] at hload
    rw [dateChannelNorm_colValues df "PPC" "clicks" hwf (by decide) (by decide)]
      at hload
    by_cases hcond : ((colIdx df.cols "clicks").isNone
        || (df.colValues "clicks").all (· = Value.null)) = true
    · rw [if_pos hcond] at hload
      by_cases hsp : (colIdx (dateChannelNorm df "PPC").cols "spend").isNone
      · rw [if_pos hsp] at hload
        cases hload
      · rw [if_neg hsp] at hload
        rw [dateChannelNorm_colValues df "PPC" "spend" hwf (by decide) (by decide)]
          at hload
        cases hm : mapE ppcImputeV (df.colValues "spend") with
        | error e => rw [hm] at hload; cases hload
        | ok vs =>
            rw [hm] at hload
            cases hload
            constructor
            · intro _
              have hlen : vs.length = (dateChannelNorm df "PPC").rows.length := by
                rw [mapE_ok_length _ _ _ hm, colValues_length,
                  dateChannelNorm_rows_length]
              rw [colValues_setColVals_self _ _ _
                (WF_dateChannelNorm df "PPC" hwf) hlen]
              exact mapE_ok_eq_map _ _ ppcImputeV_ok _ _ hm
            · intro hne
              exfalso
              rcases Bool.or_eq_true_iff.mp hcond with h | h
              · exact hne.1 (Option.isNone_iff_eq_none.mp h)
              · exact hne.2 h
    · rw [if_neg hcond] at hload
      cases hload
      constructor
      · intro hc
        exfalso
        apply hcond
        rcases hc with h | h
        · simp [h]
        · simp [h]
      · intro _
        exact dateChannelNorm_colValues df "PPC" "clicks" hwf
          (by decide) (by decide)

/-- The spec's PPC scenario input: `{date: 2024-01-01, spend: 100.0}`,
no `clicks` column. -/
def ppcScenarioIn : DF :=
  ⟨["date", "spend"], [[.date (daysFromCivil 2024 1 1), .num 100]]⟩

/-- The normalized table `load_ppc` produces on `ppcScenarioIn`. -/
def ppcScenarioOut : DF :=
  ⟨["date", "spend", "channel", "clicks"],
   [[.date (daysFromCivil 2024 1 1), .num 100, .str "PPC", .num 50]]⟩

/-- Witness for C6 at the spec's scenario: spend 100 and no clicks column
gives clicks = 50. -/
theorem C6_ppc_clicks_imputation_witness :
    ppcScenarioOut.colValues "clicks" = [Value.num 50] := by
  have h := (C6_ppc_clicks_imputation ppcScenarioIn ppcScenarioOut
    (by decide) (by decide)).1 (Or.inl (by decide))
  rw [h]
  decide

/-- C7: for every Email input table containing `date` and `emails_sent`,
if the `spend` column is absent or entirely null then the normalized Email
table has `spend = emails_sent * (30.0 / 1000.0)` on every row (a null
count yields a null spend); a populated `spend` column passes through
unchanged. -/
theorem C7_email_spend_imputation (df out : DF) (hwf : df.WF)
    (hload : load_email df = .ok out) :
    ((colIdx df.cols "spend" = none ∨
        (df.colValues "spend").all (· = Value.null) = true) →
      out.colValues "spend" = (df.colValues "emails_sent").map emailSpendOf)
    ∧ ((colIdx df.cols "spend" ≠ none ∧
        ¬ (df.colValues "spend").all (· = Value.null) = true) →
      out.colValues "spend" = df.colValues "spend") := by
  by_cases hd : (colIdx df.cols "date").isNone
  · simp [load_email, hd] at hload
  · unfold load_email at hload
    rw [if_neg hd] at hload
    rw [dateChannelNorm_colIdx df "Email" "spend" (by decide) (by decide)] at hload
    rw [dateChannelNorm_colValues df "Email" "spend" hwf (by decide) (by decide)]
      at hload
    by_cases hcond : ((colIdx df.cols "spend").isNone
        || (df.colValues "spend").all (· = Value.null)) = true
    · rw [if_pos hcond] at hload
      by_cases hsp : (colIdx (dateChannelNorm df "Email").cols "emails_sent").isNone
      · rw [if_pos hsp] at hload
        cases hload
      · rw [if_neg hsp] at hload
        rw [dateChannelNorm_colValues df "Email" "emails_sent" hwf
          (by decide) (by decide)] at hload
        cases hm : mapE emailImputeV (df.colValues "emails_sent") with
        | error e => rw [hm] at hload; cases hload
        | ok vs =>
            rw [hm] at hload
            cases hload
            constructor
            · intro _
              have hlen : vs.length = (dateChannelNorm df "Email").rows.length := by
                rw [mapE_ok_length _ _ _ hm, colValues_length,
                  dateChannelNorm_rows_length]
              rw [colValues_setColVals_self _ _ _
                (WF_dateChannelNorm df "Email" hwf) hlen]
              exact mapE_ok_eq_map _ _ emailImputeV_ok _ _ hm
            · intro hne
              exfalso
              rcases Bool.or_eq_true_iff.mp hcond with h | h
              · exact hne.1 (Option.isNone_iff_eq_none.mp h)
              · exact hne.2 h
    · rw [if_neg hcond] at hload
      cases hload
      constructor
      · intro hc
        exfalso
        apply hcond
        rcases hc with h | h
        · simp [h]
        · simp [h]
      · intro _
        exact dateChannelNorm_colValues df "Email" "spend" hwf
          (by decide) (by decide)

/-- The spec's Email scenario input: `{date: 2024-01-01, emails_sent: 2000}`,
no `spend` column. -/
def emailScenarioIn : DF :=
  ⟨["date", "emails_sent"], [[.date (daysFromCivil 2024 1 1), .num 2000]]⟩

/-- The normalized table `load_email` produces on `emailScenarioIn`. -/
def emailScenarioOut : DF :=
  ⟨["date", "emails_sent", "channel", "spend"],
   [[.date (daysFromCivil 2024 1 1), .num 2000, .str "Email", .num 60]]⟩

/-- Witness for C7 at the spec's scenario: 2000 emails and no spend column
gives spend = 60. -/
theorem C7_email_spend_imputation_witness :
    emailScenarioOut.colValues "spend" = [Value.num 60] := by
  have h := (C7_email_spend_imputation emailScenarioIn emailScenarioOut
    (by decide) (by decide)).1 (Or.inl (by decide))
  rw [h]
  decide

/-- C10: normalizers can fail on tables that do have a `date` column: a PPC
table whose `clicks` is absent-or-all-null but with no `spend` column makes
`load_ppc` raise a `KeyError` during imputation, and an Email table whose
`spend` is absent-or-all-null but with no `emails_sent` column makes
`load_email` raise — failures outside the spec's missing-`date` error. -/
theorem C10_imputation_keyerror (df1 df2 : DF)
    (hwf1 : df1.WF) (hwf2 : df2.WF)
    (h1d : colIdx df1.cols "date" ≠ none)
    (h1c : colIdx df1.cols "clicks" = none ∨
      (df1.colValues "clicks").all (· = Value.null) = true)
    (h1s : colIdx df1.cols "spend" = none)
    (h2d : colIdx df2.cols "date" ≠ none)
    (h2s : colIdx df2.cols "spend" = none ∨
      (df2.colValues "spend").all (· = Value.null) = true)
    (h2e : colIdx df2.cols "emails_sent" = none) :
    load_ppc df1 = .error "KeyError: spend" ∧
    load_email df2 = .error "KeyError: emails_sent" := by
  constructor
  · unfold load_ppc
    rw [if_neg (by simp [h1d])]
    rw [dateChannelNorm_colIdx df1 "PPC" "clicks" (by decide) (by decide)]
    rw [dateChannelNorm_colValues df1 "PPC" "clicks" hwf1 (by decide) (by decide)]
    rw [if_pos (by rcases h1c with h | h <;> simp [h])]
    rw [if_pos (by
      rw [dateChannelNorm_colIdx df1 "PPC" "spend" (by decide) (by decide)]
      simp [h1s])]
  · unfold load_email
    rw [if_neg (by simp [h2d])]
    rw [dateChannelNorm_colIdx df2 "Email" "spend" (by decide) (by decide)]
    rw [dateChannelNorm_colValues df2 "Email" "spend" hwf2 (by decide) (by decide)]
    rw [if_pos (by rcases h2s with h | h <;> simp [h])]
    rw [if_pos (by
      rw [dateChannelNorm_colIdx df2 "Email" "emails_sent" (by decide) (by decide)]
      simp [h2e])]

/-- A date-only table: `date` present, every metric column missing. -/
def dateOnlyDF : DF := ⟨["date"], [[.date (daysFromCivil 2024 1 1)]]⟩

/-- Witness for C10: the date-only table makes both normalizers raise. -/
theorem C10_imputation_keyerror_witness :
    load_ppc dateOnlyDF = .error "KeyError: spend" ∧
    load_email dateOnlyDF = .error "KeyError: emails_sent" :=
  C10_imputation_keyerror dateOnlyDF dateOnlyDF (by decide) (by decide)
    (by decide) (Or.inl (by decide)) (by decide)
    (by decide) (Or.inl (by decide)) (by decide)

/-- C5: a source table without a `date` column fails its loader immediately
with the schema error, and a missing `date` in any of the four sources
aborts the whole pipeline: no (daily, weekly) pair is produced. -/
theorem C5_missing_date_aborts (p e s c : DF)
    (h : colIdx p.cols "date" = none ∨ colIdx e.cols "date" = none ∨
         colIdx s.cols "date" = none ∨ colIdx c.cols "date" = none) :
    (∀ df : DF, colIdx df.cols "date" = none →
      (∃ msg, load_ppc df = .error msg) ∧
      (∃ msg, load_email df = .error msg) ∧
      (∃ msg, load_social df = .error msg) ∧
      (∃ msg, load_conversions df = .error msg)) ∧
    (∃ msg, mainPipeline p e s c = .error msg) := by
  constructor
  · intro df hdf
    have hd : (colIdx df.cols "date").isNone = true := by simp [hdf]
    refine ⟨⟨"ValueError: every dateframe should have the date column, problem in PPC", ?_⟩,
      ⟨"ValueError: every dateframe should have the date column, problem in Email", ?_⟩,
      ⟨"ValueError: every dateframe should have the date column, problem in Social Media", ?_⟩,
      ⟨"ValueError: every dateframe should have the date column", ?_⟩⟩
    · unfold load_ppc; rw [if_pos hd]
    · unfold load_email; rw [if_pos hd]
    · unfold load_social; rw [if_pos hd]
    · unfold load_conversions; rw [if_pos hd]
  · unfold mainPipeline
    rcases h with h | h | h | h
    · have : load_ppc p = .error
          "ValueError: every dateframe should have the date column, problem in PPC" := by
        unfold load_ppc; rw [if_pos (by simp [h])]
      rw [this]
      exact ⟨_, rfl⟩
    · cases hp : load_ppc p with
      | error msg => exact ⟨msg, rfl⟩
      | ok ppc =>
          have : load_email e = .error
              "ValueError: every dateframe should have the date column, problem in Email" := by
            unfold load_email; rw [if_pos (by simp [h])]
          rw [this]
          exact ⟨_, rfl⟩
    · cases hp : load_ppc p with
      | error msg => exact ⟨msg, rfl⟩
      | ok ppc =>
          cases he : load_email e with
          | error msg => exact ⟨msg, rfl⟩
          | ok email =>
              have : load_social s = .error
                  "ValueError: every dateframe should have the date column, problem in Social Media" := by
                unfold load_social; rw [if_pos (by simp [h])]
              rw [this]
              exact ⟨_, rfl⟩
    · cases hp : load_ppc p with
      | error msg => exact ⟨msg, rfl⟩
      | ok ppc =>
          cases he : load_email e with
          | error msg => exact ⟨msg, rfl⟩
          | ok email =>
              cases hs : load_social s with
              | error msg => exact ⟨msg, rfl⟩
              | ok social =>
                  have : load_conversions c = .error
                      "ValueError: every dateframe should have the date column" := by
                    unfold load_conversions; rw [if_pos (by simp [h])]
                  rw [this]
                  exact ⟨_, rfl⟩

/-- A table with no `date` column at all. -/
def noDateDF : DF := ⟨["spend"], [[.num 1]]⟩

/-- Witness for C5: a PPC source without `date` aborts the pipeline. -/
theorem C5_missing_date_aborts_witness :
    ∃ msg, mainPipeline noDateDF dateOnlyDF dateOnlyDF dateOnlyDF = .error msg :=
  (C5_missing_date_aborts noDateDF dateOnlyDF dateOnlyDF dateOnlyDF
    (Or.inl (by decide))).2

/-! ## C8: the conversion aggregator -/

theorem filter_eq_length_nodup {α : Type} [DecidableEq α] (l : List α)
    (h : l.Nodup) (k : α) :
    (l.filter fun x => x = k).length = if k ∈ l then 1 else 0 := by
  induction l with
  | nil => simp
  | cons a as ih =>
      rw [List.nodup_cons] at h
      by_cases hak : a = k
      · subst hak
        have hnot : (as.filter fun x => x = a).length = 0 := by
          rw [List.length_eq_zero, List.filter_eq_nil_iff]
          intro x hx
          simp only [decide_eq_true_eq]
          intro hxa
          exact h.1 (hxa ▸ hx)
        simp [List.filter_cons, hnot]
      · have hlen : (List.filter (fun x => decide (x = k)) (a :: as)).length
            = (List.filter (fun x => decide (x = k)) as).length := by
          simp [List.filter_cons, hak]
        rw [hlen, ih h.2]
        by_cases hk : k ∈ as
        · rw [if_pos hk, if_pos (List.mem_cons_of_mem a hk)]
        · rw [if_neg hk, if_neg (by simp [List.mem_cons, Ne.symm hak, hk])]

theorem groupKeys_mem (cols : List String) (ks : List String)
    (rows : List (List Value)) (k : List Value) :
    k ∈ groupKeys cols ks rows ↔
      keyOk k = true ∧ k ∈ rows.map (rowKey cols ks) := by
  unfold groupKeys sortKeys
  rw [List.mem_insertionSort, List.mem_dedup, List.mem_filter]
  tauto

theorem groupKeys_nodup (cols : List String) (ks : List String)
    (rows : List (List Value)) : (groupKeys cols ks rows).Nodup := by
  unfold groupKeys sortKeys
  exact (List.perm_insertionSort _ _).nodup_iff.mpr (List.nodup_dedup _)

theorem rowKey_pair_shape (cols : List String) (rows : List (List Value))
    (k : List Value) (h : k ∈ groupKeys cols ["date", "channel"] rows) :
    ∃ a b, k = [a, b] := by
  rw [groupKeys_mem] at h
  obtain ⟨-, hk⟩ := h
  rw [List.mem_map] at hk
  obtain ⟨r, -, rfl⟩ := hk
  exact ⟨_, _, rfl⟩

theorem convAgg_rowKey (a b : Value) (rest : List Value) :
    rowKey ["date", "channel", "revenue", "conversions"] ["date", "channel"]
      (a :: b :: rest) = [a, b] := by
  have h0 : colIdx ["date", "channel", "revenue", "conversions"] "date"
      = some 0 := by decide
  have h1 : colIdx ["date", "channel", "revenue", "conversions"] "channel"
      = some 1 := by decide
  unfold rowKey cellAt
  rw [List.map_cons, List.map_cons, List.map_nil, h0, h1]
  rfl

theorem convAgg_shape (D : DF) (r : List Value) (hr : r ∈ (convAgg D).rows) :
    r = rowKey (convAgg D).cols ["date", "channel"] r
      ++ [.num (sumCol D.cols
            (convGroup D (rowKey (convAgg D).cols ["date", "channel"] r))
            "revenue"),
          .num ((nuniqueCol D.cols
            (convGroup D (rowKey (convAgg D).cols ["date", "channel"] r))
            "conversion_id" : ℕ) : ℚ)] := by
  have hrows : (convAgg D).rows
      = (groupKeys D.cols ["date", "channel"] D.rows).map fun k =>
          k ++ [.num (sumCol D.cols (convGroup D k) "revenue"),
                .num ((nuniqueCol D.cols (convGroup D k) "conversion_id" : ℕ) : ℚ)] :=
    rfl
  rw [hrows] at hr
  rw [List.mem_map] at hr
  obtain ⟨k, hk, rfl⟩ := hr
  obtain ⟨a, b, rfl⟩ := rowKey_pair_shape _ _ _ hk
  have hcols : (convAgg D).cols = ["date", "channel", "revenue", "conversions"] := rfl
  rw [hcols]
  have hkey : rowKey ["date", "channel", "revenue", "conversions"] ["date", "channel"]
      ([a, b] ++ [Value.num (sumCol D.cols (convGroup D [a, b]) "revenue"),
        Value.num ((nuniqueCol D.cols (convGroup D [a, b]) "conversion_id" : ℕ) : ℚ)])
      = [a, b] := convAgg_rowKey a b _
  rw [hkey]

theorem convAgg_count (D : DF) (k : List Value) :
    ((convAgg D).rows.filter fun r =>
        rowKey (convAgg D).cols ["date", "channel"] r = k).length
      = if keyOk k = true ∧ k ∈ D.rows.map (rowKey D.cols ["date", "channel"])
        then 1 else 0 := by
  have hrows : (convAgg D).rows
      = (groupKeys D.cols ["date", "channel"] D.rows).map fun k0 =>
          k0 ++ [.num (sumCol D.cols (convGroup D k0) "revenue"),
                 .num ((nuniqueCol D.cols (convGroup D k0) "conversion_id" : ℕ) : ℚ)] :=
    rfl
  have hcols : (convAgg D).cols = ["date", "channel", "revenue", "conversions"] := rfl
  rw [hrows, hcols, List.filter_map, List.length_map]
  have hfc : List.filter
      ((fun r => decide (rowKey ["date", "channel", "revenue", "conversions"]
          ["date", "channel"] r = k)) ∘ fun k0 =>
        k0 ++ [Value.num (sumCol D.cols (convGroup D k0) "revenue"),
               Value.num ((nuniqueCol D.cols (convGroup D k0) "conversion_id" : ℕ) : ℚ)])
      (groupKeys D.cols ["date", "channel"] D.rows)
    = List.filter (fun k0 => decide (k0 = k))
        (groupKeys D.cols ["date", "channel"] D.rows) := by
    apply List.filter_congr
    intro x hx
    obtain ⟨a, b, rfl⟩ := rowKey_pair_shape _ _ _ hx
    have hkey : rowKey ["date", "channel", "revenue", "conversions"] ["date", "channel"]
        ([a, b] ++ [Value.num (sumCol D.cols (convGroup D [a, b]) "revenue"),
          Value.num ((nuniqueCol D.cols (convGroup D [a, b]) "conversion_id" : ℕ) : ℚ)])
        = [a, b] := convAgg_rowKey a b _
    simp only [Function.comp_apply, hkey]
  rw [hfc]
  rw [filter_eq_length_nodup _ (groupKeys_nodup D.cols ["date", "channel"] D.rows) k]
  by_cases hc : keyOk k = true ∧ k ∈ D.rows.map (rowKey D.cols ["date", "channel"])
  · rw [if_pos hc, if_pos ((groupKeys_mem _ _ _ _).mpr hc)]
  · rw [if_neg hc, if_neg (fun hmem => hc ((groupKeys_mem _ _ _ _).mp hmem))]

/-- C8 (amended): for a conversion-event table with the four required
columns, the aggregator produces exactly one output row per (date, channel)
combination whose parsed date and channel are both non-null; each such row
carries the group's revenue sum (nulls skipped) and the count of distinct
non-null `conversion_id` values; combinations with a null (unparseable)
date or null channel — and combinations with no events — produce no row. -/
theorem C8_conversion_aggregation (df d1 out : DF)
    (hd1 : d1 = df.mapCol "date" parseDateV)
    (hload : load_conversions df = .ok out) :
    (∀ k : List Value,
      (out.rows.filter fun r =>
          rowKey out.cols ["date", "channel"] r = k).length
        = if keyOk k = true ∧ k ∈ d1.rows.map (rowKey d1.cols ["date", "channel"])
          then 1 else 0)
    ∧ (∀ r ∈ out.rows,
        r = rowKey out.cols ["date", "channel"] r
          ++ [.num (sumCol d1.cols
                (convGroup d1 (rowKey out.cols ["date", "channel"] r)) "revenue"),
              .num ((nuniqueCol d1.cols
                (convGroup d1 (rowKey out.cols ["date", "channel"] r))
                "conversion_id" : ℕ) : ℚ)]) := by
  subst hd1
  by_cases h1 : (colIdx df.cols "date").isNone
  · simp [load_conversions, h1] at hload
  · unfold load_conversions at hload
    rw [if_neg h1] at hload
    by_cases h2 : (colIdx (df.mapCol "date" parseDateV).cols "channel").isNone
    · rw [if_pos h2] at hload
      cases hload
    · rw [if_neg h2] at hload
      by_cases h3 : (colIdx (df.mapCol "date" parseDateV).cols "revenue").isNone
      · rw [if_pos h3] at hload
        cases hload
      · rw [if_neg h3] at hload
        by_cases h4 : (colIdx (df.mapCol "date" parseDateV).cols "conversion_id").isNone
        · rw [if_pos h4] at hload
          cases hload
        · rw [if_neg h4] at hload
          cases hload
          exact ⟨convAgg_count _, convAgg_shape _⟩

/-- A conversion-event table containing one event whose raw date cell is
an unparseable string, so its parsed date is null. -/
def convNullDateEx : DF :=
  ⟨["date", "channel", "revenue", "conversion_id"],
   [[.str "garbage", .str "PPC", .num 5, .str "c1"]]⟩

/-- Counterexample for C8 as frozen: the (date, channel) combination of the
single input event is observed in the input, yet the aggregator output has
no row at all — pandas `groupby` drops null keys, and the unparseable date
became null. -/
theorem C8_conversion_aggregation_counterexample :
    load_conversions convNullDateEx
      = .ok ⟨["date", "channel", "revenue", "conversions"], []⟩
    ∧ convNullDateEx.rows.length = 1 := by
  constructor
  · decide
  · decide

/-- Witness for C8 (amended): on a table with two events for
(2024-01-03, Social Media) and one null-date event, the output has exactly
one row for the non-null combination. -/
def convWitnessIn : DF :=
  ⟨["date", "channel", "revenue", "conversion_id"],
   [[.date (daysFromCivil 2024 1 3), .str "Social Media", .num 40, .str "c1"],
    [.date (daysFromCivil 2024 1 3), .str "Social Media", .num 2, .str "c2"],
    [.str "garbage", .str "PPC", .num 5, .str "c3"]]⟩

/-- The aggregated output on `convWitnessIn`. -/
def convWitnessOut : DF :=
  ⟨["date", "channel", "revenue", "conversions"],
   [[.date (daysFromCivil 2024 1 3), .str "Social Media", .num 42, .num 2]]⟩

theorem C8_conversion_aggregation_witness :
    (convWitnessOut.rows.filter fun r =>
        rowKey convWitnessOut.cols ["date", "channel"] r
          = [.date (daysFromCivil 2024 1 3), .str "Social Media"]).length = 1 := by
  have h := (C8_conversion_aggregation convWitnessIn
    (convWitnessIn.mapCol "date" parseDateV) convWitnessOut rfl (by decide)).1
    [.date (daysFromCivil 2024 1 3), .str "Social Media"]
  rw [h, if_pos (by decide)]

/-! ## C9: null dates in daily and weekly outputs -/

theorem List_set_of_getD (l : List Value) (i : ℕ) (v : Value)
    (h : l.getD i .null = v) : l.set i v = l := by
  by_cases hi : i < l.length
  · apply List.ext_getElem?
    intro j
    by_cases hji : j = i
    · subst hji
      rw [List.getElem?_set_self (h := hi)]
      rw [List.getD, List.get?_eq_getElem?] at h
      rw [List.getElem?_eq_getElem hi] at h ⊢
      simp at h
      rw [h]
    · rw [List.getElem?_set_ne (Ne.symm hji)]
  · exact List.set_eq_of_length_le (Nat.le_of_not_lt hi)

theorem keyOk_weekKey_date (cols : List String) (r : List Value)
    (h : keyOk (weekKey cols r) = true) :
    cellAt cols r "date" ≠ Value.null := by
  unfold keyOk weekKey at h
  simp only [List.all_cons, Bool.and_eq_true, decide_eq_true_eq] at h
  intro hnull
  rw [hnull] at h
  exact h.1 rfl

/-- C9: in `add_time_granularities`, a row whose date is null is retained
unchanged as a row of the daily output (same position, same cells), but is
excluded from the weekly rollup: dropping all null-date rows first changes
nothing about the weekly output. -/
theorem C9_null_date_rows (df : DF) (hwf : df.WF)
    (hdate : (colIdx df.cols "date").isSome)
    (hclean : ∀ c ∈ df.cols, c ≠ "date" → c ≠ "channel" →
      (df.colValues c).all (fun v => isFloatLike v) = true) :
    (add_time_granularities df).1.rows.length = df.rows.length
    ∧ (∀ i, i < df.rows.length →
        cellAt df.cols (df.rows.getD i []) "date" = Value.null →
        (add_time_granularities df).1.rows.getD i [] = df.rows.getD i [])
    ∧ (add_time_granularities df).2
        = weeklyOf ⟨(add_time_granularities df).1.cols,
            (add_time_granularities df).1.rows.filter fun r =>
              cellAt (add_time_granularities df).1.cols r "date" ≠ Value.null⟩ := by
  obtain ⟨i0, hi0⟩ := Option.isSome_iff_exists.mp hdate
  have hdaily1 : (add_time_granularities df).1 = df.mapCol "date" parseDateV := rfl
  have hcolsd : (df.mapCol "date" parseDateV).cols = df.cols :=
    cols_setColWith_of_present df "date" _ (by simp [hi0])
  have hrowsd : (df.mapCol "date" parseDateV).rows
      = df.rows.map fun r => r.set i0 (parseDateV (cellAt df.cols r "date")) := by
    unfold DF.mapCol DF.setColWith
    rw [hi0]
  refine ⟨?_, ?_, ?_⟩
  · rw [hdaily1, hrowsd]
    simp
  · intro i hi hnull
    rw [hdaily1, hrowsd]
    have hmap : (df.rows.map fun r =>
        r.set i0 (parseDateV (cellAt df.cols r "date"))).getD i []
        = (df.rows.getD i []).set i0
            (parseDateV (cellAt df.cols (df.rows.getD i []) "date")) := by
      rw [List.getD, List.getD, List.get?_eq_getElem?, List.get?_eq_getElem?,
        List.getElem?_map, List.getElem?_eq_getElem hi]
      simp
    rw [hmap, hnull]
    have hgoal : (df.rows.getD i []).getD i0 Value.null = parseDateV Value.null := by
      unfold cellAt at hnull
      rw [hi0] at hnull
      simpa [parseDateV] using hnull
    exact List_set_of_getD _ _ _ hgoal
  · -- the weekly rollup ignores null-date rows
    have hdaily2 : (add_time_granularities df).2
        = weeklyOf (df.mapCol "date" parseDateV) := rfl
    rw [hdaily1, hdaily2]
    -- abbreviations
    have hkept : weeklyKept ⟨(df.mapCol "date" parseDateV).cols,
        (df.mapCol "date" parseDateV).rows.filter fun r =>
          cellAt (df.mapCol "date" parseDateV).cols r "date" ≠ Value.null⟩
        = weeklyKept (df.mapCol "date" parseDateV) := by
      unfold weeklyKept
      rw [List.filter_filter]
      apply List.filter_congr
      intro r hr
      by_cases hA : keyOk (weekKey (df.mapCol "date" parseDateV).cols r) = true
      · simp [hA, keyOk_weekKey_date _ _ hA]
      · simp only [Bool.and_eq_true, decide_eq_true_eq]
        rw [Bool.eq_false_iff.mpr hA]
        simp
    have hsum : weeklySumCols ⟨(df.mapCol "date" parseDateV).cols,
        (df.mapCol "date" parseDateV).rows.filter fun r =>
          cellAt (df.mapCol "date" parseDateV).cols r "date" ≠ Value.null⟩
        = weeklySumCols (df.mapCol "date" parseDateV) := by
      unfold weeklySumCols
      apply List.filter_congr
      intro c hc
      rcases eq_or_ne c "date" with rfl | hcd
      · simp
      · rcases eq_or_ne c "channel" with rfl | hcc
        · simp
        · -- both all-conditions are true
          have hcmem : c ∈ df.cols := by
            rw [hcolsd] at hc
            exact hc
          have hall : ((df.mapCol "date" parseDateV).colValues c).all
              (fun v => isFloatLike v) = true := by
            have hcv : (df.mapCol "date" parseDateV).colValues c = df.colValues c :=
              colValues_setColWith_ne df "date" c _ hcd hwf
            rw [hcv]
            exact hclean c hcmem hcd hcc
          have hallF : ((⟨(df.mapCol "date" parseDateV).cols,
              (df.mapCol "date" parseDateV).rows.filter fun r =>
                cellAt (df.mapCol "date" parseDateV).cols r "date" ≠ Value.null⟩ :
                DF).colValues c).all (fun v => isFloatLike v) = true := by
            unfold DF.colValues at hall ⊢
            rw [List.all_eq_true] at hall ⊢
            intro v hv
            rw [List.mem_map] at hv
            obtain ⟨r, hr, rfl⟩ := hv
            exact hall _ (List.mem_map_of_mem _ (List.mem_of_mem_filter hr))
          simp only [hcd, hcc, hall, hallF]
    unfold weeklyOf weeklyKeys
    rw [hkept, hsum]

/-- A small integrated-style table with one null-date row. -/
def c9Ex : DF :=
  ⟨["date", "channel", "spend"],
   [[.null, .str "PPC", .num 3],
    [.date (daysFromCivil 2024 1 1), .str "PPC", .num 4]]⟩

/-- Witness for C9: the null-date row survives daily unchanged and the
weekly output is the same with or without it. -/
theorem C9_null_date_rows_witness :
    (add_time_granularities c9Ex).1.rows.getD 0 [] = c9Ex.rows.getD 0 []
    ∧ (add_time_granularities c9Ex).2
        = weeklyOf ⟨(add_time_granularities c9Ex).1.cols,
            (add_time_granularities c9Ex).1.rows.filter fun r =>
              cellAt (add_time_granularities c9Ex).1.cols r "date" ≠ Value.null⟩ := by
  have h := C9_null_date_rows c9Ex (by decide) (by decide) (by decide)
  exact ⟨h.2.1 0 (by decide) (by decide), h.2.2⟩

/-! ## C2: weekly bucketing -/

theorem weeklyKeys_mem (D : DF) (k : List Value) :
    k ∈ weeklyKeys D ↔ keyOk k = true ∧ k ∈ D.rows.map (weekKey D.cols) := by
  unfold weeklyKeys weeklyKept sortKeys
  rw [List.mem_insertionSort, List.mem_dedup]
  constructor
  · intro h
    rw [List.mem_map] at h
    obtain ⟨r, hr, rfl⟩ := h
    rw [List.mem_filter] at hr
    exact ⟨hr.2, List.mem_map_of_mem _ hr.1⟩
  · rintro ⟨hk, hmem⟩
    rw [List.mem_map] at hmem
    obtain ⟨r, hr, rfl⟩ := hmem
    exact List.mem_map_of_mem _ (List.mem_filter.mpr ⟨hr, hk⟩)

theorem weeklyKeys_pair_shape (D : DF) (k : List Value)
    (h : k ∈ weeklyKeys D) : ∃ a b, k = [a, b] := by
  rw [weeklyKeys_mem] at h
  obtain ⟨-, hk⟩ := h
  rw [List.mem_map] at hk
  obtain ⟨r, -, rfl⟩ := hk
  exact ⟨_, _, rfl⟩

theorem rowKey_prefix (tail : List String) (a b : Value) (rest : List Value) :
    rowKey ("date" :: "channel" :: tail) ["date", "channel"] (a :: b :: rest)
      = [a, b] := by
  have h0 : colIdx ("date" :: "channel" :: tail) "date" = some 0 := by
    unfold colIdx
    rw [List.findIdx?_cons]
    simp
  have h1 : colIdx ("date" :: "channel" :: tail) "channel" = some 1 := by
    unfold colIdx
    rw [List.findIdx?_cons]
    simp only [decide_eq_true_eq]
    rw [if_neg (by decide)]
    rw [List.findIdx?_cons]
    simp
  unfold rowKey cellAt
  rw [List.map_cons, List.map_cons, List.map_nil, h0, h1]
  rfl

theorem weeklyOf_keys_map (D : DF) :
    (weeklyOf D).rows.map (rowKey (weeklyOf D).cols ["date", "channel"])
      = weeklyKeys D := by
  have hrows : (weeklyOf D).rows
      = (weeklyKeys D).map fun k =>
          k ++ (weeklySumCols D).map fun c =>
            Value.num (sumCol D.cols
              ((weeklyKept D).filter fun r => weekKey D.cols r = k) c) := rfl
  have hcols : (weeklyOf D).cols = "date" :: "channel" :: weeklySumCols D := rfl
  rw [hrows, hcols, List.map_map]
  conv_rhs => rw [← List.map_id (weeklyKeys D)]
  apply List.map_congr_left
  intro k hk
  obtain ⟨a, b, rfl⟩ := weeklyKeys_pair_shape D k hk
  have := rowKey_prefix (weeklySumCols D) a b
    ((weeklySumCols D).map fun c =>
      Value.num (sumCol D.cols
        ((weeklyKept D).filter fun r => weekKey D.cols r = [a, b]) c))
  simpa using this

/-- The column layout of the integrated table. -/
def integratedCols : List String :=
  ["date", "channel", "spend", "clicks", "emails_sent", "impressions",
   "revenue", "conversions"]

theorem twoRow_weekly (d1 d2 : ℤ) (ch : String)
    (a1 a2 a3 a4 a5 a6 b1 b2 b3 b4 b5 b6 : ℚ)
    (hw : weekLabel d1 = weekLabel d2) :
    (add_time_granularities
      ⟨integratedCols,
       [[.date d1, .str ch, .num a1, .num a2, .num a3, .num a4, .num a5, .num a6],
        [.date d2, .str ch, .num b1, .num b2, .num b3, .num b4, .num b5, .num b6]]⟩).2
    = ⟨integratedCols,
       [[.date (weekLabel d1), .str ch, .num (a1 + b1), .num (a2 + b2),
         .num (a3 + b3), .num (a4 + b4), .num (a5 + b5), .num (a6 + b6)]]⟩ := by
  show weeklyOf _ = _
  have hmc : ((⟨integratedCols,
      [[.date d1, .str ch, .num a1, .num a2, .num a3, .num a4, .num a5, .num a6],
       [.date d2, .str ch, .num b1, .num b2, .num b3, .num b4, .num b5, .num b6]]⟩ :
      DF).mapCol "date" parseDateV)
      = ⟨integratedCols,
      [[.date d1, .str ch, .num a1, .num a2, .num a3, .num a4, .num a5, .num a6],
       [.date d2, .str ch, .num b1, .num b2, .num b3, .num b4, .num b5, .num b6]]⟩ := rfl
  rw [hmc]
  have hkept : weeklyKept (⟨integratedCols,
      [[.date d1, .str ch, .num a1, .num a2, .num a3, .num a4, .num a5, .num a6],
       [.date d2, .str ch, .num b1, .num b2, .num b3, .num b4, .num b5, .num b6]]⟩ :
      DF)
      = [[.date d1, .str ch, .num a1, .num a2, .num a3, .num a4, .num a5, .num a6],
         [.date d2, .str ch, .num b1, .num b2, .num b3, .num b4, .num b5, .num b6]] := rfl
  have hkeys : weeklyKeys (⟨integratedCols,
      [[.date d1, .str ch, .num a1, .num a2, .num a3, .num a4, .num a5, .num a6],
       [.date d2, .str ch, .num b1, .num b2, .num b3, .num b4, .num b5, .num b6]]⟩ :
      DF)
      = [[.date (weekLabel d1), .str ch]] := by
    unfold weeklyKeys
    rw [hkept]
    rw [show ([[Value.date d1, Value.str ch, Value.num a1, Value.num a2, Value.num a3,
          Value.num a4, Value.num a5, Value.num a6],
         [Value.date d2, Value.str ch, Value.num b1, Value.num b2, Value.num b3,
          Value.num b4, Value.num b5, Value.num b6]].map
        (weekKey integratedCols))
      = [[Value.date (weekLabel d1), Value.str ch],
         [Value.date (weekLabel d2), Value.str ch]] from rfl]
    rw [← hw]
    rw [List.dedup_cons_of_mem (List.mem_singleton.mpr rfl)]
    rfl
  show DF.mk _ _ = _
  rw [hkeys, hkept]
  have hfil : ([[Value.date d1, Value.str ch, Value.num a1, Value.num a2, Value.num a3,
        Value.num a4, Value.num a5, Value.num a6],
       [Value.date d2, Value.str ch, Value.num b1, Value.num b2, Value.num b3,
        Value.num b4, Value.num b5, Value.num b6]].filter fun r =>
        weekKey integratedCols r = [Value.date (weekLabel d1), Value.str ch])
      = [[Value.date d1, Value.str ch, Value.num a1, Value.num a2, Value.num a3,
          Value.num a4, Value.num a5, Value.num a6],
         [Value.date d2, Value.str ch, Value.num b1, Value.num b2, Value.num b3,
          Value.num b4, Value.num b5, Value.num b6]] := by
    rw [List.filter_cons, if_pos (decide_eq_true
      (show weekKey integratedCols
          [Value.date d1, Value.str ch, Value.num a1, Value.num a2, Value.num a3,
           Value.num a4, Value.num a5, Value.num a6]
        = [Value.date (weekLabel d1), Value.str ch] from rfl))]
    rw [List.filter_cons, if_pos (decide_eq_true (by
      rw [show weekKey integratedCols
          [Value.date d2, Value.str ch, Value.num b1, Value.num b2, Value.num b3,
           Value.num b4, Value.num b5, Value.num b6]
        = [Value.date (weekLabel d2), Value.str ch] from rfl]
      rw [← hw]))]
    rw [List.filter_nil]
  dsimp only
  have hsc : weeklySumCols (⟨integratedCols,
      [[.date d1, .str ch, .num a1, .num a2, .num a3, .num a4, .num a5, .num a6],
       [.date d2, .str ch, .num b1, .num b2, .num b3, .num b4, .num b5, .num b6]]⟩ :
      DF)
      = ["spend", "clicks", "emails_sent", "impressions", "revenue", "conversions"] := rfl
  rw [hsc]
  simp only [List.map_cons, List.map_nil]
  rw [hfil]
  show DF.mk integratedCols
      [[Value.date (weekLabel d1), Value.str ch,
        Value.num (qadd (qadd 0 a1) b1), Value.num (qadd (qadd 0 a2) b2),
        Value.num (qadd (qadd 0 a3) b3), Value.num (qadd (qadd 0 a4) b4),
        Value.num (qadd (qadd 0 a5) b5), Value.num (qadd (qadd 0 a6) b6)]] = _
  simp only [qadd_eq, zero_add]

theorem weekLabel_spec (d : ℤ) :
    (weekLabel d + 3) % 7 = 0 ∧ d ≤ weekLabel d ∧ weekLabel d < d + 7 := by
  unfold weekLabel
  omega

theorem weekly_bucket_mem (df : DF) (hwf : df.WF) (i0 : ℕ)
    (hi0 : colIdx df.cols "date" = some i0)
    (r : List Value) (hr : r ∈ df.rows) (d : ℤ)
    (hd : cellAt df.cols r "date" = .date d)
    (hch : cellAt df.cols r "channel" ≠ Value.null) :
    [Value.date (weekLabel d), cellAt df.cols r "channel"]
      ∈ ((add_time_granularities df).2).rows.map
          (rowKey ((add_time_granularities df).2).cols ["date", "channel"]) := by
  have h2 : (add_time_granularities df).2
      = weeklyOf (df.mapCol "date" parseDateV) := rfl
  rw [h2, weeklyOf_keys_map, weeklyKeys_mem]
  have hcols : (df.mapCol "date" parseDateV).cols = df.cols :=
    cols_setColWith_of_present df "date" _ (by simp [hi0])
  have hrows : (df.mapCol "date" parseDateV).rows
      = df.rows.map fun r0 => r0.set i0 (parseDateV (cellAt df.cols r0 "date")) := by
    unfold DF.mapCol DF.setColWith
    rw [hi0]
  constructor
  · unfold keyOk
    simp only [List.all_cons, List.all_nil, Bool.and_eq_true, decide_eq_true_eq]
    exact ⟨fun h => Value.noConfusion h, hch, trivial⟩
  · rw [hrows, hcols, List.map_map]
    rw [List.mem_map]
    refine ⟨r, hr, ?_⟩
    simp only [Function.comp_apply]
    unfold weekKey
    rw [cellAt_set_self df.cols r "date" i0 _ hi0 (hwf r hr)]
    rw [cellAt_set_ne df.cols r "date" "channel" i0 _ hi0 (by decide)]
    rw [hd]
    rfl

/-- The spec's C2 scenario: two same-channel rows dated 2024-01-01 (Monday)
and 2024-01-03 (Wednesday). -/
def c2ScenarioDF : DF :=
  ⟨["date", "channel", "spend"],
   [[.date (daysFromCivil 2024 1 1), .str "PPC", .num 1],
    [.date (daysFromCivil 2024 1 3), .str "PPC", .num 2]]⟩

/-- Counterexample for C2 as frozen: the rows dated 2024-01-01 and
2024-01-03 do NOT share a weekly bucket — the weekly output has two rows,
labelled 2024-01-01 and 2024-01-08 (the `W-MON` grouper labels each row by
the Monday that ends its Tuesday-to-Monday week, not the Monday that
starts its calendar week). -/
theorem C2_weekly_bucketing_counterexample :
    ((add_time_granularities c2ScenarioDF).2).rows.length = 2
    ∧ ((add_time_granularities c2ScenarioDF).2).rows.map
        (fun r => cellAt ((add_time_granularities c2ScenarioDF).2).cols r "date")
      = [.date (daysFromCivil 2024 1 1), .date (daysFromCivil 2024 1 8)] := by
  constructor
  · decide
  · decide

/-- C2 (amended): the weekly grouper's buckets are Tuesday-to-Monday spans
labelled by the Monday that ends them: every bucket label is a Monday `l`
with `d ≤ l < d + 7` for each member date `d` (the smallest Monday at or
after `d`); every integrated row with a valid date and channel lands in the
bucket labelled `weekLabel d`; and two same-channel rows whose dates share
that label produce exactly one weekly row whose numeric columns are the
sums of the two rows' values. -/
theorem C2_weekly_bucketing :
    (∀ d : ℤ, (weekLabel d + 3) % 7 = 0 ∧ d ≤ weekLabel d ∧ weekLabel d < d + 7)
    ∧ (∀ df : DF, df.WF → ∀ i0 : ℕ, colIdx df.cols "date" = some i0 →
        ∀ r ∈ df.rows, ∀ d : ℤ,
          cellAt df.cols r "date" = Value.date d →
          cellAt df.cols r "channel" ≠ Value.null →
          [Value.date (weekLabel d), cellAt df.cols r "channel"]
            ∈ ((add_time_granularities df).2).rows.map
                (rowKey ((add_time_granularities df).2).cols ["date", "channel"]))
    ∧ (∀ (d1 d2 : ℤ) (ch : String) (a1 a2 a3 a4 a5 a6 b1 b2 b3 b4 b5 b6 : ℚ),
        weekLabel d1 = weekLabel d2 →
        (add_time_granularities
          ⟨integratedCols,
           [[.date d1, .str ch, .num a1, .num a2, .num a3, .num a4, .num a5, .num a6],
            [.date d2, .str ch, .num b1, .num b2, .num b3, .num b4, .num b5, .num b6]]⟩).2
        = ⟨integratedCols,
           [[.date (weekLabel d1), .str ch, .num (a1 + b1), .num (a2 + b2),
             .num (a3 + b3), .num (a4 + b4), .num (a5 + b5), .num (a6 + b6)]]⟩) :=
  ⟨weekLabel_spec,
   fun df hwf i0 hi0 r hr d hd hch =>
     weekly_bucket_mem df hwf i0 hi0 r hr d hd hch,
   fun d1 d2 ch a1 a2 a3 a4 a5 a6 b1 b2 b3 b4 b5 b6 hw =>
     twoRow_weekly d1 d2 ch a1 a2 a3 a4 a5 a6 b1 b2 b3 b4 b5 b6 hw⟩

/-- Witness for C2 (amended): 2024-01-02 (Tuesday) and 2024-01-03
(Wednesday) share the week ending Monday 2024-01-08; their two rows
collapse to a single summed weekly row labelled 2024-01-08. -/
theorem C2_weekly_bucketing_witness :
    (add_time_granularities
      ⟨integratedCols,
       [[.date (daysFromCivil 2024 1 2), .str "PPC",
         .num 1, .num 2, .num 3, .num 4, .num 5, .num 6],
        [.date (daysFromCivil 2024 1 3), .str "PPC",
         .num 10, .num 20, .num 30, .num 40, .num 50, .num 60]]⟩).2
    = ⟨integratedCols,
       [[.date (weekLabel (daysFromCivil 2024 1 2)), .str "PPC",
         .num (1 + 10), .num (2 + 20), .num (3 + 30), .num (4 + 40),
         .num (5 + 50), .num (6 + 60)]]⟩ :=
  C2_weekly_bucketing.2.2 (daysFromCivil 2024 1 2) (daysFromCivil 2024 1 3)
    "PPC" 1 2 3 4 5 6 10 20 30 40 50 60 (by decide)

/-! ## Characterization of `coalesce_numeric` -/

theorem getD_map_lt {α β : Type} (f : α → β) (l : List α) (i : ℕ)
    (hi : i < l.length) (d : β) (d0 : α) :
    (l.map f).getD i d = f (l.getD i d0) := by
  rw [List.getD, List.getD, List.get?_eq_getElem?, List.get?_eq_getElem?,
    List.getElem?_map, List.getElem?_eq_getElem hi]
  simp

theorem cleanV_num (v : Value) : ∃ q : ℚ, cleanV v = Value.num q := by
  cases v with
  | num q => exact ⟨q, rfl⟩
  | str s =>
      cases h : s.toNat? with
      | none => exact ⟨0, by simp [cleanV, toNumericV, fillZeroV, h]⟩
      | some n => exact ⟨(n : ℚ), by simp [cleanV, toNumericV, fillZeroV, h]⟩
  | date d => exact ⟨0, rfl⟩
  | null => exact ⟨0, rfl⟩

theorem cleanV_idem (v : Value) : cleanV (cleanV v) = cleanV v := by
  obtain ⟨q, hq⟩ := cleanV_num v
  rw [hq]
  rfl

theorem WF_coalesceStep (df : DF) (c : String) (hwf : df.WF) :
    (coalesceStep df c).WF := by
  unfold coalesceStep
  by_cases h : (colIdx df.cols c).isSome
  · rw [if_pos h]
    exact WF_mapCol df c _ hwf
  · rw [if_neg h]
    exact WF_setColConst df c _ hwf

theorem rows_length_coalesceStep (df : DF) (c : String) :
    (coalesceStep df c).rows.length = df.rows.length := by
  unfold coalesceStep
  by_cases h : (colIdx df.cols c).isSome
  · rw [if_pos h]
    exact rows_length_setColWith df c _
  · rw [if_neg h]
    exact rows_length_setColWith df c _

theorem getD_mem {α : Type} (l : List α) (i : ℕ) (hi : i < l.length) (d : α) :
    l.getD i d ∈ l := by
  have h1 : l.getD i d = l[i] := by
    rw [List.getD, List.get?_eq_getElem?, List.getElem?_eq_getElem hi]
    rfl
  rw [h1]
  exact List.getElem_mem hi

theorem coalesceStep_cellAt (df : DF) (c0 : String) (hwf : df.WF) (i : ℕ)
    (hi : i < df.rows.length) (c : String) :
    cellAt (coalesceStep df c0).cols ((coalesceStep df c0).rows.getD i []) c
      = if c = c0 then cleanV (cellAt df.cols (df.rows.getD i []) c)
        else cellAt df.cols (df.rows.getD i []) c := by
  have hmem : df.rows.getD i [] ∈ df.rows := getD_mem df.rows i hi []
  have hlen : (df.rows.getD i []).length = df.cols.length := hwf _ hmem
  unfold coalesceStep
  cases h : colIdx df.cols c0 with
  | some j =>
      rw [if_pos (by simp [h])]
      have hrows : (df.mapCol c0 cleanV).rows
          = df.rows.map fun r => r.set j (cleanV (cellAt df.cols r c0)) := by
        unfold DF.mapCol DF.setColWith
        rw [h]
      have hcols : (df.mapCol c0 cleanV).cols = df.cols :=
        cols_setColWith_of_present df c0 _ (by simp [h])
      rw [hrows, hcols, getD_map_lt _ _ i hi [] []]
      by_cases hc : c = c0
      · subst hc
        rw [if_pos rfl]
        exact cellAt_set_self df.cols _ c j _ h hlen
      · rw [if_neg hc]
        exact cellAt_set_ne df.cols _ c0 c j _ h hc
  | none =>
      rw [if_neg (by simp [h])]
      have hrows : (df.setColConst c0 (.num 0)).rows
          = df.rows.map fun r => r ++ [.num 0] := by
        unfold DF.setColConst DF.setColWith
        rw [h]
      have hcols : (df.setColConst c0 (.num 0)).cols = df.cols ++ [c0] := by
        unfold DF.setColConst
        exact cols_setColWith_of_absent df c0 _ h
      rw [hrows, hcols, getD_map_lt _ _ i hi [] []]
      by_cases hc : c = c0
      · subst hc
        rw [if_pos rfl]
        rw [cellAt_append_self df.cols _ c _ h hlen]
        unfold cellAt
        rw [h]
        rfl
      · rw [if_neg hc]
        exact cellAt_append_ne df.cols _ c0 c _ hc hlen

theorem coalesceStep_colPresent (df : DF) (c0 c : String)
    (h : c = c0 ∨ (colIdx df.cols c).isSome = true) :
    (colIdx (coalesceStep df c0).cols c).isSome = true := by
  unfold coalesceStep
  cases h0 : colIdx df.cols c0 with
  | some j =>
      rw [if_pos (by simp [h0])]
      have hcols : (df.mapCol c0 cleanV).cols = df.cols :=
        cols_setColWith_of_present df c0 _ (by simp [h0])
      rw [hcols]
      rcases h with rfl | h
      · simp [h0]
      · exact h
  | none =>
      rw [if_neg (by simp [h0])]
      have hcols : (df.setColConst c0 (.num 0)).cols = df.cols ++ [c0] := by
        unfold DF.setColConst
        exact cols_setColWith_of_absent df c0 _ h0
      rw [hcols]
      rcases h with rfl | h
      · rw [colIdx_append_self df.cols c h0]
        rfl
      · by_cases hc : c = c0
        · subst hc
          rw [colIdx_append_self df.cols c h0]
          rfl
        · rw [colIdx_append_ne df.cols c0 c hc]
          exact h

/-- The full behaviour of `coalesce_numeric`: it is rectangularity- and
length-preserving, makes every requested column present, and transforms
cells of requested columns by `cleanV` leaving all other cells alone. -/
theorem coalesce_numeric_facts (cs : List String) (df : DF) (hwf : df.WF) :
    (coalesce_numeric df cs).WF
    ∧ (coalesce_numeric df cs).rows.length = df.rows.length
    ∧ (∀ c : String, c ∈ cs ∨ (colIdx df.cols c).isSome = true →
        (colIdx (coalesce_numeric df cs).cols c).isSome = true)
    ∧ ∀ i, i < df.rows.length → ∀ c : String,
        cellAt (coalesce_numeric df cs).cols
            ((coalesce_numeric df cs).rows.getD i []) c
          = if c ∈ cs then cleanV (cellAt df.cols (df.rows.getD i []) c)
            else cellAt df.cols (df.rows.getD i []) c := by
  induction cs generalizing df with
  | nil =>
      refine ⟨hwf, rfl, ?_, ?_⟩
      · intro c hc
        rcases hc with hc | hc
        · cases hc
        · exact hc
      · intro i hi c
        rw [if_neg (List.not_mem_nil c)]
        rfl
  | cons c0 rest ih =>
      have hwf1 := WF_coalesceStep df c0 hwf
      obtain ⟨ihwf, ihlen, ihpres, ihcell⟩ := ih (coalesceStep df c0) hwf1
      have hstep : coalesce_numeric df (c0 :: rest)
          = coalesce_numeric (coalesceStep df c0) rest := rfl
      rw [hstep]
      refine ⟨ihwf, by rw [ihlen, rows_length_coalesceStep], ?_, ?_⟩
      · intro c hc
        by_cases hcr : c ∈ rest
        · exact ihpres c (Or.inl hcr)
        · apply ihpres c
          right
          apply coalesceStep_colPresent
          rcases hc with hc | hc
          · rw [List.mem_cons] at hc
            rcases hc with rfl | hc
            · exact Or.inl rfl
            · exact absurd hc hcr
          · exact Or.inr hc
      · intro i hi c
        have hi1 : i < (coalesceStep df c0).rows.length := by
          rw [rows_length_coalesceStep]
          exact hi
        rw [ihcell i hi1 c, coalesceStep_cellAt df c0 hwf i hi c]
        by_cases hc0 : c = c0
        · subst hc0
          rw [if_pos (List.mem_cons_self c rest)]
          by_cases hcr : c ∈ rest
          · rw [if_pos hcr, if_pos rfl, cleanV_idem]
          · rw [if_neg hcr, if_pos rfl]
        · by_cases hcr : c ∈ rest
          · rw [if_pos hcr, if_pos (List.mem_cons_of_mem c0 hcr), if_neg hc0]
          · rw [if_neg hcr, if_neg hc0, if_neg (by simp [List.mem_cons, hc0, hcr])]

/-- A column is "clean" when it exists and holds only numbers — exactly the
state `coalesce_numeric` establishes. -/
def colClean (df : DF) (c : String) : Prop :=
  (colIdx df.cols c).isSome = true
  ∧ ∀ v ∈ df.colValues c, ∃ q : ℚ, v = Value.num q

theorem coalesceStep_of_clean (df : DF) (c : String) (h : colClean df c) :
    coalesceStep df c = df := by
  obtain ⟨hpres, hvals⟩ := h
  obtain ⟨j, hj⟩ := Option.isSome_iff_exists.mp hpres
  unfold coalesceStep
  rw [if_pos (by simp [hj])]
  unfold DF.mapCol DF.setColWith
  rw [hj]
  dsimp only
  have hrows : (df.rows.map fun r => r.set j (cleanV (cellAt df.cols r c)))
      = df.rows := by
    conv_rhs => rw [← List.map_id df.rows]
    apply List.map_congr_left
    intro r hr
    obtain ⟨q, hq⟩ := hvals (cellAt df.cols r c) (List.mem_map_of_mem _ hr)
    apply List_set_of_getD
    have hcell : cellAt df.cols r c = r.getD j Value.null := by
      unfold cellAt
      rw [hj]
    rw [← hcell, hq]
    rfl
  rw [hrows]

theorem coalesce_numeric_of_clean (cs : List String) (df : DF)
    (h : ∀ c ∈ cs, colClean df c) : coalesce_numeric df cs = df := by
  induction cs with
  | nil => rfl
  | cons c0 rest ih =>
      have hstep : coalesce_numeric df (c0 :: rest)
          = coalesce_numeric (coalesceStep df c0) rest := rfl
      rw [hstep, coalesceStep_of_clean df c0 (h c0 (List.mem_cons_self c0 rest))]
      exact ih fun c hc => h c (List.mem_cons_of_mem c0 hc)

theorem coalesce_numeric_clean (cs : List String) (df : DF) (hwf : df.WF) :
    ∀ c ∈ cs, colClean (coalesce_numeric df cs) c := by
  obtain ⟨owf, olen, opres, ocell⟩ := coalesce_numeric_facts cs df hwf
  intro c hc
  refine ⟨opres c (Or.inl hc), ?_⟩
  intro v hv
  unfold DF.colValues at hv
  rw [List.mem_map] at hv
  obtain ⟨r, hr, rfl⟩ := hv
  obtain ⟨i, hilt, hieq⟩ := List.mem_iff_getElem.mp hr
  have hgd : (coalesce_numeric df cs).rows.getD i [] = r := by
    rw [List.getD, List.get?_eq_getElem?, List.getElem?_eq_getElem hilt]
    exact hieq
  have hi : i < df.rows.length := by
    rw [← olen]
    exact hilt
  have := ocell i hi c
  rw [hgd] at this
  rw [this, if_pos hc]
  exact cleanV_num _

/-- C4: the Schema Harmonizer is idempotent — applying `coalesce_numeric`
twice with the same column list gives the same table as applying it once —
and after one application every required column is present and holds only
(non-null) numbers. -/
theorem C4_harmonizer_idempotent (df : DF) (cs : List String) (hwf : df.WF) :
    coalesce_numeric (coalesce_numeric df cs) cs = coalesce_numeric df cs
    ∧ ∀ c ∈ cs, (colIdx (coalesce_numeric df cs).cols c).isSome = true
        ∧ ∀ v ∈ (coalesce_numeric df cs).colValues c, ∃ q : ℚ, v = Value.num q :=
  ⟨coalesce_numeric_of_clean cs _ (coalesce_numeric_clean cs df hwf),
   fun c hc => coalesce_numeric_clean cs df hwf c hc⟩

/-- A dirty table: `spend` holds a string and a null, `clicks` is absent. -/
def dirtyDF : DF :=
  ⟨["date", "spend"], [[.date 19723, .str "oops"], [.null, .null]]⟩

/-- Witness for C4 on a concrete dirty table and the PPC column list. -/
theorem C4_harmonizer_idempotent_witness :
    coalesce_numeric (coalesce_numeric dirtyDF ["spend", "clicks"])
        ["spend", "clicks"]
      = coalesce_numeric dirtyDF ["spend", "clicks"] :=
  (C4_harmonizer_idempotent dirtyDF ["spend", "clicks"] (by decide)).1

/-! ## Left-merge infrastructure for C1 and C3 -/

theorem colIdx_append_left (l1 l2 : List String) (c : String) (i : ℕ)
    (h : colIdx l1 c = some i) : colIdx (l1 ++ l2) c = some i := by
  unfold colIdx at h ⊢
  rw [List.findIdx?_append, h]
  rfl

theorem colIdx_append_right_none (l1 l2 : List String) (c : String)
    (h : colIdx l1 c = none) :
    colIdx (l1 ++ l2) c = (colIdx l2 c).map (· + l1.length) := by
  unfold colIdx at h ⊢
  rw [List.findIdx?_append, h]
  rfl

theorem cellAt_append_left (l1 l2 : List String) (r1 r2 : List Value)
    (c : String) (i : ℕ) (h : colIdx l1 c = some i)
    (hlen : r1.length = l1.length) :
    cellAt (l1 ++ l2) (r1 ++ r2) c = cellAt l1 r1 c := by
  unfold cellAt
  rw [colIdx_append_left l1 l2 c i h, h]
  have hi : i < r1.length := hlen ▸ (colIdx_some_getElem l1 c i h).1
  dsimp only
  simp only [List.getD, List.get?_eq_getElem?]
  rw [List.getElem?_append_left hi]

theorem cellAt_append_right (l1 l2 : List String) (r1 r2 : List Value)
    (c : String) (h : colIdx l1 c = none) (hlen : r1.length = l1.length) :
    cellAt (l1 ++ l2) (r1 ++ r2) c = cellAt l2 r2 c := by
  unfold cellAt
  rw [colIdx_append_right_none l1 l2 c h]
  cases h2 : colIdx l2 c with
  | none => rfl
  | some k =>
      simp only [Option.map]
      simp only [List.getD, List.get?_eq_getElem?]
      rw [List.getElem?_append_right (by omega : r1.length ≤ k + l1.length)]
      rw [hlen]
      congr 2
      omega

theorem cellAt_const_null (cols : List String) (c : String) :
    cellAt cols (cols.map fun _ => Value.null) c = Value.null := by
  unfold cellAt
  cases h : colIdx cols c with
  | none => rfl
  | some i =>
      have hi : i < cols.length := (colIdx_some_getElem cols c i h).1
      dsimp only
      simp only [List.getD, List.get?_eq_getElem?]
      rw [List.getElem?_map, List.getElem?_eq_getElem hi]
      rfl

theorem stackBase_cols (p e s : DF) : (stackBase p e s).cols = baseCols := rfl

theorem stackBase_row_len (p e s : DF) (b : List Value)
    (hb : b ∈ (stackBase p e s).rows) : b.length = 6 := by
  have : (stackBase p e s).rows = ppcProj p ++ (emailProj e ++ socialProj s) := by
    unfold stackBase
    rw [List.append_assoc]
  rw [this] at hb
  rcases List.mem_append.mp hb with h | h
  · unfold ppcProj at h
    rw [List.mem_map] at h
    obtain ⟨r, -, rfl⟩ := h
    rfl
  · rcases List.mem_append.mp h with h | h
    · unfold emailProj at h
      rw [List.mem_map] at h
      obtain ⟨r, -, rfl⟩ := h
      rfl
    · unfold socialProj at h
      rw [List.mem_map] at h
      obtain ⟨r, -, rfl⟩ := h
      rfl

theorem stackBase_WF (p e s : DF) : (stackBase p e s).WF := by
  intro b hb
  rw [stackBase_row_len p e s b hb]
  rfl

theorem leftMerge_cols (base conv : DF) :
    (leftMerge base conv).cols = base.cols ++ mergeExtra conv := rfl

theorem leftMerge_mem (base conv : DF) (r : List Value)
    (hr : r ∈ (leftMerge base conv).rows) :
    ∃ b ∈ base.rows,
      (convMatches conv base.cols b = []
        ∧ r = b ++ (mergeExtra conv).map fun _ => Value.null)
      ∨ (∃ s ∈ conv.rows,
          (cellAt conv.cols s "date" = cellAt base.cols b "date" ∧
           cellAt conv.cols s "channel" = cellAt base.cols b "channel")
          ∧ r = b ++ (mergeExtra conv).map fun c => cellAt conv.cols s c) := by
  have hrows : (leftMerge base conv).rows
      = base.rows.flatMap (mergeRow conv base.cols) := rfl
  rw [hrows, List.mem_flatMap] at hr
  obtain ⟨b, hb, hrb⟩ := hr
  refine ⟨b, hb, ?_⟩
  unfold mergeRow at hrb
  cases hms : convMatches conv base.cols b with
  | nil =>
      rw [hms] at hrb
      simp only [List.mem_singleton] at hrb
      exact Or.inl ⟨rfl, hrb⟩
  | cons s0 ss =>
      rw [hms] at hrb
      rw [List.mem_map] at hrb
      obtain ⟨s, hs, rfl⟩ := hrb
      have hsmem : s ∈ convMatches conv base.cols b := by
        rw [hms]
        exact hs
      unfold convMatches at hsmem
      rw [List.mem_filter] at hsmem
      refine ⟨s, hsmem.1, ?_, rfl⟩ |> Or.inr
      have := hsmem.2
      simp only [decide_eq_true_eq, Bool.and_eq_true] at this
      exact this

theorem leftMerge_WF (base conv : DF) (hb : base.WF) : (leftMerge base conv).WF := by
  intro r hr
  obtain ⟨b, hbm, hcase⟩ := leftMerge_mem base conv r hr
  have hcols : (leftMerge base conv).cols = base.cols ++ mergeExtra conv := rfl
  rw [hcols]
  rcases hcase with ⟨-, rfl⟩ | ⟨s, -, -, rfl⟩ <;>
    simp [hb b hbm]

theorem integrate_ok (ppc email social conv m : DF)
    (h : integrate ppc email social conv = .ok m) :
    m = sortByDateChannel (coalesce_numeric
          (leftMerge (stackBase (coalesce_numeric ppc ["spend", "clicks"])
              (coalesce_numeric email ["spend", "clicks"])
              (coalesce_numeric social ["spend", "clicks", "impressions"]))
            conv)
          ["spend", "clicks", "revenue", "emails_sent", "impressions"]) := by
  unfold integrate at h
  by_cases h1 : ((colIdx ppc.cols "date").isNone
      || (colIdx ppc.cols "channel").isNone) = true
  · rw [if_pos h1] at h
    cases h
  · rw [if_neg h1] at h
    by_cases h2 : ((colIdx email.cols "date").isNone
        || (colIdx email.cols "channel").isNone) = true
    · rw [if_pos h2] at h
      cases h
    · rw [if_neg h2] at h
      by_cases h3 : ((colIdx social.cols "date").isNone
          || (colIdx social.cols "channel").isNone) = true
      · rw [if_pos h3] at h
        cases h
      · rw [if_neg h3] at h
        exact (Except.ok.inj h).symm

set_option maxHeartbeats 1000000 in
/-- C1 (amended): in the final Integrated table, a row whose (date, channel)
pair matches no conversion row has `revenue = 0.0` but `conversions` still
null — the final cleanup list omits `conversions`, so the join null
survives in that column. -/
theorem C1_left_join_defaults (ppc email social conv m : DF)
    (hok : integrate ppc email social conv = .ok m) :
    ∀ r ∈ m.rows,
      (∀ s ∈ conv.rows,
        ¬(cellAt conv.cols s "date" = cellAt m.cols r "date" ∧
          cellAt conv.cols s "channel" = cellAt m.cols r "channel")) →
      cellAt m.cols r "revenue" = Value.num 0
      ∧ cellAt m.cols r "conversions" = Value.null := by
  have hm := integrate_ok ppc email social conv m hok
  subst hm
  intro r hr hnomatch
  have hbaseWF : (stackBase (coalesce_numeric ppc ["spend", "clicks"])
      (coalesce_numeric email ["spend", "clicks"])
      (coalesce_numeric social ["spend", "clicks", "impressions"])).WF :=
    stackBase_WF _ _ _
  have hmWF : (leftMerge (stackBase (coalesce_numeric ppc ["spend", "clicks"])
      (coalesce_numeric email ["spend", "clicks"])
      (coalesce_numeric social ["spend", "clicks", "impressions"])) conv).WF :=
    leftMerge_WF _ conv hbaseWF
  obtain ⟨cwf, clen, cpres, ccell⟩ := coalesce_numeric_facts
    ["spend", "clicks", "revenue", "emails_sent", "impressions"] _ hmWF
  -- a sorted row is a cleaned row
  have hr' : r ∈ (coalesce_numeric
      (leftMerge (stackBase (coalesce_numeric ppc ["spend", "clicks"])
          (coalesce_numeric email ["spend", "clicks"])
          (coalesce_numeric social ["spend", "clicks", "impressions"])) conv)
      ["spend", "clicks", "revenue", "emails_sent", "impressions"]).rows := by
    have : (sortByDateChannel (coalesce_numeric
        (leftMerge (stackBase (coalesce_numeric ppc ["spend", "clicks"])
            (coalesce_numeric email ["spend", "clicks"])
            (coalesce_numeric social ["spend", "clicks", "impressions"])) conv)
        ["spend", "clicks", "revenue", "emails_sent", "impressions"])).rows
        = List.insertionSort _ (coalesce_numeric
        (leftMerge (stackBase (coalesce_numeric ppc ["spend", "clicks"])
            (coalesce_numeric email ["spend", "clicks"])
            (coalesce_numeric social ["spend", "clicks", "impressions"])) conv)
        ["spend", "clicks", "revenue", "emails_sent", "impressions"]).rows := rfl
    rw [this] at hr
    exact (List.mem_insertionSort _).mp hr
  obtain ⟨i, hilt, hieq⟩ := List.mem_iff_getElem.mp hr'
  have hgd : (coalesce_numeric
      (leftMerge (stackBase (coalesce_numeric ppc ["spend", "clicks"])
          (coalesce_numeric email ["spend", "clicks"])
          (coalesce_numeric social ["spend", "clicks", "impressions"])) conv)
      ["spend", "clicks", "revenue", "emails_sent", "impressions"]).rows.getD i []
      = r := by
    rw [List.getD, List.get?_eq_getElem?, List.getElem?_eq_getElem hilt]
    exact hieq
  have hi : i < (leftMerge (stackBase (coalesce_numeric ppc ["spend", "clicks"])
      (coalesce_numeric email ["spend", "clicks"])
      (coalesce_numeric social ["spend", "clicks", "impressions"])) conv).rows.length := by
    rw [← clen]
    exact hilt
  have hcell := ccell i hi
  rw [hgd] at hcell
  -- the merged row behind r
  have hr0 : (leftMerge (stackBase (coalesce_numeric ppc ["spend", "clicks"])
      (coalesce_numeric email ["spend", "clicks"])
      (coalesce_numeric social ["spend", "clicks", "impressions"])) conv).rows.getD i []
      ∈ (leftMerge (stackBase (coalesce_numeric ppc ["spend", "clicks"])
      (coalesce_numeric email ["spend", "clicks"])
      (coalesce_numeric social ["spend", "clicks", "impressions"])) conv).rows :=
    getD_mem _ i hi []
  obtain ⟨b, hb, hcase⟩ := leftMerge_mem _ conv _ hr0
  have hblen : b.length = baseCols.length := hbaseWF b hb
  have hdate0 : colIdx baseCols "date" = some 0 := by decide
  have hchan1 : colIdx baseCols "channel" = some 1 := by decide
  have hmcols : (leftMerge (stackBase (coalesce_numeric ppc ["spend", "clicks"])
      (coalesce_numeric email ["spend", "clicks"])
      (coalesce_numeric social ["spend", "clicks", "impressions"])) conv).cols
      = baseCols ++ mergeExtra conv := rfl
  -- the sorted table's cells at r agree with the cleaned table's cells
  have hrdate := hcell "date"
  rw [if_neg (by decide)] at hrdate
  have hrchan := hcell "channel"
  rw [if_neg (by decide)] at hrchan
  rcases hcase with ⟨hempty, hrow⟩ | ⟨s, hs, hmatch, hrow⟩
  · -- unmatched: revenue cleaned to zero, conversions left null
    constructor
    · have h1 := hcell "revenue"
      rw [if_pos (by decide)] at h1
      rw [show cellAt (sortByDateChannel (coalesce_numeric
          (leftMerge (stackBase (coalesce_numeric ppc ["spend", "clicks"])
              (coalesce_numeric email ["spend", "clicks"])
              (coalesce_numeric social ["spend", "clicks", "impressions"])) conv)
          ["spend", "clicks", "revenue", "emails_sent", "impressions"])).cols r "revenue"
        = cellAt (coalesce_numeric
          (leftMerge (stackBase (coalesce_numeric ppc ["spend", "clicks"])
              (coalesce_numeric email ["spend", "clicks"])
              (coalesce_numeric social ["spend", "clicks", "impressions"])) conv)
          ["spend", "clicks", "revenue", "emails_sent", "impressions"]).cols r "revenue"
        from rfl, h1, hmcols, hrow,
        cellAt_append_right baseCols (mergeExtra conv) b _ "revenue" (by decide) hblen,
        cellAt_const_null]
      rfl
    · have h1 := hcell "conversions"
      rw [if_neg (by decide)] at h1
      rw [show cellAt (sortByDateChannel (coalesce_numeric
          (leftMerge (stackBase (coalesce_numeric ppc ["spend", "clicks"])
              (coalesce_numeric email ["spend", "clicks"])
              (coalesce_numeric social ["spend", "clicks", "impressions"])) conv)
          ["spend", "clicks", "revenue", "emails_sent", "impressions"])).cols r "conversions"
        = cellAt (coalesce_numeric
          (leftMerge (stackBase (coalesce_numeric ppc ["spend", "clicks"])
              (coalesce_numeric email ["spend", "clicks"])
              (coalesce_numeric social ["spend", "clicks", "impressions"])) conv)
          ["spend", "clicks", "revenue", "emails_sent", "impressions"]).cols r "conversions"
        from rfl, h1, hmcols, hrow,
        cellAt_append_right baseCols (mergeExtra conv) b _ "conversions" (by decide) hblen,
        cellAt_const_null]
  · -- matched: contradicts the no-match hypothesis
    exfalso
    apply hnomatch s hs
    have hd : cellAt (leftMerge (stackBase (coalesce_numeric ppc ["spend", "clicks"])
        (coalesce_numeric email ["spend", "clicks"])
        (coalesce_numeric social ["spend", "clicks", "impressions"])) conv).cols
        ((leftMerge (stackBase (coalesce_numeric ppc ["spend", "clicks"])
          (coalesce_numeric email ["spend", "clicks"])
          (coalesce_numeric social ["spend", "clicks", "impressions"])) conv).rows.getD i [])
        "date" = cellAt baseCols b "date" := by
      rw [hmcols, hrow]
      exact cellAt_append_left baseCols (mergeExtra conv) b _ "date" 0 hdate0 hblen
    have hc : cellAt (leftMerge (stackBase (coalesce_numeric ppc ["spend", "clicks"])
        (coalesce_numeric email ["spend", "clicks"])
        (coalesce_numeric social ["spend", "clicks", "impressions"])) conv).cols
        ((leftMerge (stackBase (coalesce_numeric ppc ["spend", "clicks"])
          (coalesce_numeric email ["spend", "clicks"])
          (coalesce_numeric social ["spend", "clicks", "impressions"])) conv).rows.getD i [])
        "channel" = cellAt baseCols b "channel" := by
      rw [hmcols, hrow]
      exact cellAt_append_left baseCols (mergeExtra conv) b _ "channel" 1 hchan1 hblen
    constructor
    · rw [show cellAt (sortByDateChannel (coalesce_numeric
          (leftMerge (stackBase (coalesce_numeric ppc ["spend", "clicks"])
              (coalesce_numeric email ["spend", "clicks"])
              (coalesce_numeric social ["spend", "clicks", "impressions"])) conv)
          ["spend", "clicks", "revenue", "emails_sent", "impressions"])).cols r "date"
        = cellAt (coalesce_numeric
          (leftMerge (stackBase (coalesce_numeric ppc ["spend", "clicks"])
              (coalesce_numeric email ["spend", "clicks"])
              (coalesce_numeric social ["spend", "clicks", "impressions"])) conv)
          ["spend", "clicks", "revenue", "emails_sent", "impressions"]).cols r "date"
        from rfl, hrdate, hd]
      exact hmatch.1
    · rw [show cellAt (sortByDateChannel (coalesce_numeric
          (leftMerge (stackBase (coalesce_numeric ppc ["spend", "clicks"])
              (coalesce_numeric email ["spend", "clicks"])
              (coalesce_numeric social ["spend", "clicks", "impressions"])) conv)
          ["spend", "clicks", "revenue", "emails_sent", "impressions"])).cols r "channel"
        = cellAt (coalesce_numeric
          (leftMerge (stackBase (coalesce_numeric ppc ["spend", "clicks"])
              (coalesce_numeric email ["spend", "clicks"])
              (coalesce_numeric social ["spend", "clicks", "impressions"])) conv)
          ["spend", "clicks", "revenue", "emails_sent", "impressions"]).cols r "channel"
        from rfl, hrchan, hc]
      exact hmatch.2

/-- Concrete normalized activity tables with no conversion summary rows. -/
def c1Ppc : DF :=
  ⟨["date", "spend", "channel", "clicks"],
   [[.date (daysFromCivil 2024 1 1), .num 100, .str "PPC", .num 50]]⟩

def c1Email : DF :=
  ⟨["date", "emails_sent", "channel", "spend"],
   [[.date (daysFromCivil 2024 1 1), .num 2000, .str "Email", .num 60]]⟩

def c1Social : DF :=
  ⟨["date", "spend", "clicks", "impressions", "channel"],
   [[.date (daysFromCivil 2024 1 3), .num 10, .num 5, .num 1000,
     .str "Social Media"]]⟩

/-- An empty conversion summary: no (date, channel) pair has a match. -/
def c1Conv : DF := ⟨["date", "channel", "revenue", "conversions"], []⟩

/-- The Integrated table the code produces on those inputs. -/
def c1Out : DF :=
  ⟨["date", "channel", "spend", "clicks", "emails_sent", "impressions",
    "revenue", "conversions"],
   [[.date (daysFromCivil 2024 1 1), .str "Email", .num 60, .num 0,
     .num 2000, .num 0, .num 0, .null],
    [.date (daysFromCivil 2024 1 1), .str "PPC", .num 100, .num 50,
     .num 0, .num 0, .num 0, .null],
    [.date (daysFromCivil 2024 1 3), .str "Social Media", .num 10, .num 5,
     .num 0, .num 1000, .num 0, .null]]⟩

/-- Counterexample for C1 as frozen: the PPC row for (2024-01-01, PPC) has
no conversion match, and the final Integrated table gives it
`revenue = 0.0` but `conversions = null` — the null DOES survive the left
join in the `conversions` column, because the final cleanup list omits it. -/
theorem C1_left_join_defaults_counterexample :
    integrate c1Ppc c1Email c1Social c1Conv = .ok c1Out
    ∧ (c1Out.rows.map fun r => cellAt c1Out.cols r "conversions")
      = [Value.null, Value.null, Value.null]
    ∧ (c1Out.rows.map fun r => cellAt c1Out.cols r "revenue")
      = [Value.num 0, Value.num 0, Value.num 0] := by
  refine ⟨by decide, by decide, by decide⟩

/-- Witness for C1 (amended) at the (2024-01-01, Email) row. -/
theorem C1_left_join_defaults_witness :
    cellAt c1Out.cols (c1Out.rows.getD 0 []) "revenue" = Value.num 0
    ∧ cellAt c1Out.cols (c1Out.rows.getD 0 []) "conversions" = Value.null :=
  C1_left_join_defaults c1Ppc c1Email c1Social c1Conv c1Out (by decide)
    (c1Out.rows.getD 0 []) (by decide) (by decide)

/-! ## C3: join completeness -/

theorem flatMap_congr {α β : Type} (l : List α) (f g : α → List β)
    (h : ∀ x ∈ l, f x = g x) : l.flatMap f = l.flatMap g := by
  induction l with
  | nil => rfl
  | cons a as ih =>
      rw [List.flatMap_cons, List.flatMap_cons,
        h a (List.mem_cons_self a as),
        ih fun x hx => h x (List.mem_cons_of_mem a hx)]

theorem flatMap_singleton_map {α β : Type} (l : List α) (g : α → β) :
    (l.flatMap fun x => [g x]) = l.map g := by
  induction l with
  | nil => rfl
  | cons a as ih => simp [List.flatMap_cons, ih]

theorem list_ext_getD {α : Type} (l1 l2 : List α) (d : α)
    (hlen : l1.length = l2.length)
    (h : ∀ i, i < l1.length → l1.getD i d = l2.getD i d) : l1 = l2 := by
  apply List.ext_getElem hlen
  intro i h1 h2
  have hh := h i h1
  rw [List.getD, List.getD, List.get?_eq_getElem?, List.get?_eq_getElem?,
    List.getElem?_eq_getElem h1, List.getElem?_eq_getElem h2] at hh
  simpa using hh

theorem length_filter_le_one {α β : Type} [DecidableEq β] (l : List α)
    (g : α → β) (hn : (l.map g).Nodup) (k : β) :
    (l.filter fun x => g x = k).length ≤ 1 := by
  induction l with
  | nil => simp
  | cons a as ih =>
      rw [List.map_cons, List.nodup_cons] at hn
      rw [List.filter_cons]
      by_cases h : g a = k
      · rw [if_pos (decide_eq_true h)]
        have hnil : (as.filter fun x => g x = k) = [] := by
          rw [List.filter_eq_nil_iff]
          intro x hx
          simp only [decide_eq_true_eq]
          intro hgx
          exact hn.1 (h ▸ hgx ▸ List.mem_map_of_mem g hx)
        simp [hnil]
      · rw [if_neg (by simp [h])]
        exact ih hn.2

theorem mergeExtra_no_date (conv : DF) : colIdx (mergeExtra conv) "date" = none := by
  rw [colIdx_eq_none_iff]
  unfold mergeExtra
  intro h
  rw [List.mem_filter] at h
  have := h.2
  simp at this

theorem mergeExtra_no_channel (conv : DF) :
    colIdx (mergeExtra conv) "channel" = none := by
  rw [colIdx_eq_none_iff]
  unfold mergeExtra
  intro h
  rw [List.mem_filter] at h
  have := h.2
  simp at this

theorem cellAt_merge_key (bcols : List String) (conv : DF)
    (b tail : List Value) (c : String)
    (hc : colIdx (mergeExtra conv) c = none) (hlen : b.length = bcols.length) :
    cellAt (bcols ++ mergeExtra conv) (b ++ tail) c = cellAt bcols b c := by
  cases h : colIdx bcols c with
  | some i => exact cellAt_append_left bcols (mergeExtra conv) b tail c i h hlen
  | none =>
      rw [cellAt_append_right bcols (mergeExtra conv) b tail c h hlen]
      unfold cellAt
      rw [hc, h]

theorem mergeRow_keys (base conv : DF) (hbWF : base.WF)
    (hnd : (conv.rows.map (rowKey conv.cols ["date", "channel"])).Nodup)
    (b : List Value) (hb : b ∈ base.rows) :
    (mergeRow conv base.cols b).map
        (rowKey (base.cols ++ mergeExtra conv) ["date", "channel"])
      = [rowKey base.cols ["date", "channel"] b] := by
  have hlen : b.length = base.cols.length := hbWF b hb
  have hkey : ∀ tail : List Value,
      rowKey (base.cols ++ mergeExtra conv) ["date", "channel"] (b ++ tail)
        = rowKey base.cols ["date", "channel"] b := by
    intro tail
    unfold rowKey
    rw [List.map_cons, List.map_cons, List.map_nil,
      List.map_cons, List.map_cons, List.map_nil]
    rw [cellAt_merge_key base.cols conv b tail "date" (mergeExtra_no_date conv) hlen,
      cellAt_merge_key base.cols conv b tail "channel" (mergeExtra_no_channel conv) hlen]
  unfold mergeRow
  cases hms : convMatches conv base.cols b with
  | nil =>
      rw [List.map_cons, List.map_nil, hkey]
  | cons s0 ss =>
      have hone : (convMatches conv base.cols b).length ≤ 1 := by
        unfold convMatches
        have hcong : (conv.rows.filter fun s =>
            cellAt conv.cols s "date" = cellAt base.cols b "date" ∧
            cellAt conv.cols s "channel" = cellAt base.cols b "channel")
            = conv.rows.filter fun s =>
              rowKey conv.cols ["date", "channel"] s
                = rowKey base.cols ["date", "channel"] b := by
          apply List.filter_congr
          intro s _
          apply decide_eq_decide.mpr
          unfold rowKey
          simp only [List.map_cons, List.map_nil, List.cons.injEq, and_true]
        rw [hcong]
        exact length_filter_le_one conv.rows _ hnd _
      have hss : ss = [] := by
        rw [hms] at hone
        simp at hone
        exact hone
      subst hss
      dsimp only
      rw [List.map_cons, List.map_nil, List.map_cons, List.map_nil, hkey]

theorem leftMerge_keys_map (base conv : DF) (hbWF : base.WF)
    (hnd : (conv.rows.map (rowKey conv.cols ["date", "channel"])).Nodup) :
    (leftMerge base conv).rows.map
        (rowKey (leftMerge base conv).cols ["date", "channel"])
      = base.rows.map (rowKey base.cols ["date", "channel"]) := by
  have hrows : (leftMerge base conv).rows
      = base.rows.flatMap (mergeRow conv base.cols) := rfl
  have hcols : (leftMerge base conv).cols = base.cols ++ mergeExtra conv := rfl
  rw [hrows, hcols, List.map_flatMap]
  rw [← flatMap_singleton_map base.rows (rowKey base.cols ["date", "channel"])]
  exact flatMap_congr base.rows _ _ (mergeRow_keys base conv hbWF hnd)

theorem coalesce_keys_map (cs : List String) (df : DF) (hwf : df.WF)
    (hd : "date" ∉ cs) (hc : "channel" ∉ cs) :
    (coalesce_numeric df cs).rows.map
        (rowKey (coalesce_numeric df cs).cols ["date", "channel"])
      = df.rows.map (rowKey df.cols ["date", "channel"]) := by
  obtain ⟨owf, olen, opres, ocell⟩ := coalesce_numeric_facts cs df hwf
  apply list_ext_getD _ _ []
  · simp [olen]
  · intro i hi
    have hi1 : i < (coalesce_numeric df cs).rows.length := by simpa using hi
    have hi2 : i < df.rows.length := by rw [← olen]; exact hi1
    rw [getD_map_lt _ _ i hi1 [] [], getD_map_lt _ _ i hi2 [] []]
    unfold rowKey
    rw [List.map_cons, List.map_cons, List.map_nil,
      List.map_cons, List.map_cons, List.map_nil]
    rw [show cellAt (coalesce_numeric df cs).cols
        ((coalesce_numeric df cs).rows.getD i []) "date"
      = cellAt df.cols (df.rows.getD i []) "date" by
        rw [ocell i hi2 "date", if_neg hd],
      show cellAt (coalesce_numeric df cs).cols
        ((coalesce_numeric df cs).rows.getD i []) "channel"
      = cellAt df.cols (df.rows.getD i []) "channel" by
        rw [ocell i hi2 "channel", if_neg hc]]

theorem convAgg_keys_map (D : DF) :
    (convAgg D).rows.map (rowKey (convAgg D).cols ["date", "channel"])
      = groupKeys D.cols ["date", "channel"] D.rows := by
  have hrows : (convAgg D).rows
      = (groupKeys D.cols ["date", "channel"] D.rows).map fun k =>
          k ++ [.num (sumCol D.cols (convGroup D k) "revenue"),
                .num ((nuniqueCol D.cols (convGroup D k) "conversion_id" : ℕ) : ℚ)] :=
    rfl
  have hcols : (convAgg D).cols = ["date", "channel", "revenue", "conversions"] := rfl
  rw [hrows, hcols, List.map_map]
  conv_rhs => rw [← List.map_id (groupKeys D.cols ["date", "channel"] D.rows)]
  apply List.map_congr_left
  intro k hk
  obtain ⟨a, b, rfl⟩ := rowKey_pair_shape _ _ _ hk
  have hc := convAgg_rowKey a b
    [Value.num (sumCol D.cols (convGroup D [a, b]) "revenue"),
     Value.num ((nuniqueCol D.cols (convGroup D [a, b]) "conversion_id" : ℕ) : ℚ)]
  simpa using hc

theorem load_conversions_keys_nodup (raw out : DF)
    (h : load_conversions raw = .ok out) :
    (out.rows.map (rowKey out.cols ["date", "channel"])).Nodup := by
  by_cases h1 : (colIdx raw.cols "date").isNone
  · simp [load_conversions, h1] at h
  · unfold load_conversions at h
    rw [if_neg h1] at h
    by_cases h2 : (colIdx (raw.mapCol "date" parseDateV).cols "channel").isNone
    · rw [if_pos h2] at h
      cases h
    · rw [if_neg h2] at h
      by_cases h3 : (colIdx (raw.mapCol "date" parseDateV).cols "revenue").isNone
      · rw [if_pos h3] at h
        cases h
      · rw [if_neg h3] at h
        by_cases h4 : (colIdx (raw.mapCol "date" parseDateV).cols "conversion_id").isNone
        · rw [if_pos h4] at h
          cases h
        · rw [if_neg h4] at h
          cases h
          rw [convAgg_keys_map]
          exact groupKeys_nodup _ _ _

set_option maxHeartbeats 1000000 in
/-- C3: with a conversion summary that has at most one row per
(date, channel) — which `load_conversions` always produces, second
conjunct — the left join neither drops nor multiplies activity rows and
fabricates no conversion-only rows: the multiset of (date, channel) keys
of the pre-bucketing Integrated table is exactly that of the stacked
(harmonized, unioned) activity table. -/
theorem C3_join_completeness (ppc email social conv m : DF)
    (hnd : (conv.rows.map (rowKey conv.cols ["date", "channel"])).Nodup)
    (hok : integrate ppc email social conv = .ok m) :
    List.Perm
      (m.rows.map (rowKey m.cols ["date", "channel"]))
      ((stackBase (coalesce_numeric ppc ["spend", "clicks"])
          (coalesce_numeric email ["spend", "clicks"])
          (coalesce_numeric social ["spend", "clicks", "impressions"])).rows.map
        (rowKey baseCols ["date", "channel"]))
    ∧ ∀ raw out : DF, load_conversions raw = .ok out →
        (out.rows.map (rowKey out.cols ["date", "channel"])).Nodup := by
  refine ⟨?_, load_conversions_keys_nodup⟩
  have hm := integrate_ok ppc email social conv m hok
  subst hm
  have hbaseWF : (stackBase (coalesce_numeric ppc ["spend", "clicks"])
      (coalesce_numeric email ["spend", "clicks"])
      (coalesce_numeric social ["spend", "clicks", "impressions"])).WF :=
    stackBase_WF _ _ _
  have hmergeWF := leftMerge_WF _ conv hbaseWF
  have hsortrows : (sortByDateChannel (coalesce_numeric
      (leftMerge (stackBase (coalesce_numeric ppc ["spend", "clicks"])
          (coalesce_numeric email ["spend", "clicks"])
          (coalesce_numeric social ["spend", "clicks", "impressions"])) conv)
      ["spend", "clicks", "revenue", "emails_sent", "impressions"])).rows
      = List.insertionSort _ (coalesce_numeric
      (leftMerge (stackBase (coalesce_numeric ppc ["spend", "clicks"])
          (coalesce_numeric email ["spend", "clicks"])
          (coalesce_numeric social ["spend", "clicks", "impressions"])) conv)
      ["spend", "clicks", "revenue", "emails_sent", "impressions"]).rows := rfl
  have hperm : List.Perm (sortByDateChannel (coalesce_numeric
      (leftMerge (stackBase (coalesce_numeric ppc ["spend", "clicks"])
          (coalesce_numeric email ["spend", "clicks"])
          (coalesce_numeric social ["spend", "clicks", "impressions"])) conv)
      ["spend", "clicks", "revenue", "emails_sent", "impressions"])).rows
      (coalesce_numeric
      (leftMerge (stackBase (coalesce_numeric ppc ["spend", "clicks"])
          (coalesce_numeric email ["spend", "clicks"])
          (coalesce_numeric social ["spend", "clicks", "impressions"])) conv)
      ["spend", "clicks", "revenue", "emails_sent", "impressions"]).rows := by
    rw [hsortrows]
    exact List.perm_insertionSort _ _
  have hcolseq : (sortByDateChannel (coalesce_numeric
      (leftMerge (stackBase (coalesce_numeric ppc ["spend", "clicks"])
          (coalesce_numeric email ["spend", "clicks"])
          (coalesce_numeric social ["spend", "clicks", "impressions"])) conv)
      ["spend", "clicks", "revenue", "emails_sent", "impressions"])).cols
      = (coalesce_numeric
      (leftMerge (stackBase (coalesce_numeric ppc ["spend", "clicks"])
          (coalesce_numeric email ["spend", "clicks"])
          (coalesce_numeric social ["spend", "clicks", "impressions"])) conv)
      ["spend", "clicks", "revenue", "emails_sent", "impressions"]).cols := rfl
  rw [hcolseq]
  have hstep1 := hperm.map (rowKey (coalesce_numeric
      (leftMerge (stackBase (coalesce_numeric ppc ["spend", "clicks"])
          (coalesce_numeric email ["spend", "clicks"])
          (coalesce_numeric social ["spend", "clicks", "impressions"])) conv)
      ["spend", "clicks", "revenue", "emails_sent", "impressions"]).cols ["date", "channel"])
  refine hstep1.trans ?_
  rw [coalesce_keys_map _ _ hmergeWF (by decide) (by decide)]
  rw [leftMerge_keys_map _ conv hbaseWF hnd]
  have : (stackBase (coalesce_numeric ppc ["spend", "clicks"])
      (coalesce_numeric email ["spend", "clicks"])
      (coalesce_numeric social ["spend", "clicks", "impressions"])).cols
      = baseCols := rfl
  rw [this]

/-- A conversion summary with one row matching the PPC activity row. -/
def c3Conv : DF :=
  ⟨["date", "channel", "revenue", "conversions"],
   [[.date (daysFromCivil 2024 1 1), .str "PPC", .num 500, .num 3]]⟩

/-- The Integrated table on `c1Ppc`/`c1Email`/`c1Social` joined with `c3Conv`. -/
def c3Out : DF :=
  ⟨["date", "channel", "spend", "clicks", "emails_sent", "impressions",
    "revenue", "conversions"],
   [[.date (daysFromCivil 2024 1 1), .str "Email", .num 60, .num 0,
     .num 2000, .num 0, .num 0, .null],
    [.date (daysFromCivil 2024 1 1), .str "PPC", .num 100, .num 50,
     .num 0, .num 0, .num 500, .num 3],
    [.date (daysFromCivil 2024 1 3), .str "Social Media", .num 10, .num 5,
     .num 0, .num 1000, .num 0, .null]]⟩

/-- Witness for C3 on a concrete run with one matching conversion row. -/
theorem C3_join_completeness_witness :
    List.Perm
      (c3Out.rows.map (rowKey c3Out.cols ["date", "channel"]))
      ((stackBase (coalesce_numeric c1Ppc ["spend", "clicks"])
          (coalesce_numeric c1Email ["spend", "clicks"])
          (coalesce_numeric c1Social ["spend", "clicks", "impressions"])).rows.map
        (rowKey baseCols ["date", "channel"])) :=
  (C3_join_completeness c1Ppc c1Email c1Social c3Conv c3Out
    (by decide) (by decide)).1
